import Mathlib

/-!
Verification of the modal lifecycle manager (`shadcn-modal-manager`).

The development shallowly embeds the library's core:
* `core.ts`: the reducer (`reducer`), action creators, `ALREADY_MOUNTED`,
  the uid generator (`getUid` / `resetUidSeed`);
* `api.ts`: the coordinator (`openModal`, `closeModal`, `removeModal`,
  `closeAllModals`, `markClosed`, `notifyOpened`, the `ModalRef` surface,
  the ledgers `modalCallbacks` / `hideModalCallbacks` / `openedCallbacks` /
  `beforeClosedCallbacks` / `closedPromises` / `modalStates`);
* `hooks.ts`: the animation-end handler and the hook-level close path.

JavaScript objects keyed by modal id are modelled as association lists with
unique keys; deferred promises are modelled as cells in an explicit heap
(`List PromState`), where resolving an already-resolved cell is a no-op,
exactly as for a JS promise.  Referential identity of the store object
(needed for the reducer's change-detection contract) is modelled by a heap
of store values: a transition either returns the input index unchanged
(same reference) or appends a fresh value (new object).
-/

namespace ModalMgr

/-- Opaque result/data values carried by the promises and the `data` payload.
`undef` is JavaScript's `undefined`. -/
inductive Val where
  | undef : Val
  | num : Nat → Val
  deriving DecidableEq, Repr

/-! ### Association lists (JS objects keyed by modal id) -/

/-- `obj[k]` lookup. -/
def alook {β : Type} : List (String × β) → String → Option β
  | [], _ => none
  | (k', v) :: t, k => if k' = k then some v else alook t k

/-- `obj[k] = v`: replace in place (JS objects keep the original key
position on overwrite) or append at the end. -/
def aset {β : Type} : List (String × β) → String → β → List (String × β)
  | [], k, v => [(k, v)]
  | (k', v') :: t, k, v => if k' = k then (k, v) :: t else (k', v') :: aset t k v

/-- `delete obj[k]`.  A JS object holds each key at most once, so removing
every pair with key `k` is a faithful embedding of `delete`. -/
def adel {β : Type} : List (String × β) → String → List (String × β)
  | [], _ => []
  | (k', v') :: t, k => if k' = k then adel t k else (k', v') :: adel t k

@[simp] theorem alook_nil {β : Type} (k : String) : alook ([] : List (String × β)) k = none := rfl

theorem alook_aset_self {β : Type} (l : List (String × β)) (k : String) (v : β) :
    alook (aset l k v) k = some v := by
  induction l with
  | nil => simp [aset, alook]
  | cons hd t ih =>
    obtain ⟨k', v'⟩ := hd
    by_cases h : k' = k
    · simp [aset, alook, h]
    · simp [aset, alook, h, ih]

theorem alook_aset_ne {β : Type} (l : List (String × β)) (k k' : String) (v : β)
    (h : k ≠ k') : alook (aset l k v) k' = alook l k' := by
  induction l with
  | nil => simp [aset, alook, h]
  | cons hd t ih =>
    obtain ⟨k0, v0⟩ := hd
    by_cases h0 : k0 = k
    · subst h0
      simp [aset, alook, h]
    · simp only [aset, if_neg h0]
      by_cases h1 : k0 = k'
      · simp [alook, h1]
      · simp [alook, h1, ih]

theorem alook_adel_self {β : Type} (l : List (String × β)) (k : String) :
    alook (adel l k) k = none := by
  induction l with
  | nil => simp [adel]
  | cons hd t ih =>
    obtain ⟨k0, v0⟩ := hd
    by_cases h0 : k0 = k
    · simp [adel, h0, ih]
    · simp [adel, h0, alook, ih]

theorem alook_adel_ne {β : Type} (l : List (String × β)) (k k' : String)
    (h : k ≠ k') : alook (adel l k) k' = alook l k' := by
  induction l with
  | nil => simp [adel]
  | cons hd t ih =>
    obtain ⟨k0, v0⟩ := hd
    by_cases h0 : k0 = k
    · subst h0
      simp [adel, alook, fun he : k0 = k' => h he, ih]
    · simp only [adel, if_neg h0]
      by_cases h1 : k0 = k'
      · simp [alook, h1]
      · simp [alook, h1, ih]

/-- Deletion only removes entries: a successful lookup after `adel` was
already successful before. -/
theorem alook_adel_sub {β : Type} (l : List (String × β)) (k k' : String) (v : β)
    (h : alook (adel l k) k' = some v) : alook l k' = some v := by
  by_cases h1 : k = k'
  · subst h1
    rw [alook_adel_self] at h
    exact absurd h (by simp)
  · rwa [alook_adel_ne l k k' h1] at h

/-- A successful lookup after `aset` is either the new binding or an old one. -/
theorem alook_aset_cases {β : Type} (l : List (String × β)) (k k' : String) (v v' : β)
    (h : alook (aset l k v) k' = some v') :
    (k' = k ∧ v' = v) ∨ alook l k' = some v' := by
  by_cases h1 : k = k'
  · subst h1
    rw [alook_aset_self] at h
    exact Or.inl ⟨rfl, (Option.some_inj.mp h).symm⟩
  · rw [alook_aset_ne l k k' v h1] at h
    exact Or.inr h

/-! ### Store state and reducer (`core.ts`) -/

/-- Per-identifier entry of the reactive store (`ModalStore[id]`).
`keepMounted` is absent (`false`) until set by a `set-flags` merge or
preserved by the `show` branch's spread of the previous entry. -/
structure ModalState where
  modalId : String
  data : Option Val
  isOpen : Bool
  delayOpen : Bool
  keepMounted : Bool
  deriving DecidableEq, Repr

/-- The reactive store value: a JS object keyed by modal id. -/
def StoreVal : Type := List (String × ModalState)

instance : DecidableEq StoreVal := by
  unfold StoreVal
  infer_instance

instance : Repr StoreVal := by
  unfold StoreVal
  infer_instance

/-- Flag payloads passed to the `set-flags` action (`actions.setFlags`);
every field of the entry can be overridden, absent fields are kept. -/
structure Flags where
  data : Option (Option Val) := none
  isOpen : Option Bool := none
  delayOpen : Option Bool := none
  keepMounted : Option Bool := none
  deriving DecidableEq, Repr

/-- `{...existingState, ...flags}`. -/
def mergeFlags (m : ModalState) (f : Flags) : ModalState :=
  { m with
    data := f.data.getD m.data
    isOpen := f.isOpen.getD m.isOpen
    delayOpen := f.delayOpen.getD m.delayOpen
    keepMounted := f.keepMounted.getD m.keepMounted }

/-- The four dispatched action shapes plus the reducer's `default` branch
(an action of any other type, e.g. a store-init action). -/
inductive ModalAction where
  | show' (modalId : String) (data : Option Val)
  | hide (modalId : String)
  | remove (modalId : String)
  | setFlags (modalId : String) (flags : Flags)
  | other
  deriving DecidableEq, Repr

/-- Value-level transition of `reducer` (`core.ts`).  `mounted` is the
`ALREADY_MOUNTED` side table maintained by the view binder. -/
def reduceVal (mounted : List String) (st : StoreVal) : ModalAction → StoreVal
  | ModalAction.show' id d =>
    aset st id
      { modalId := id
        data := d
        isOpen := mounted.contains id
        delayOpen := !mounted.contains id
        keepMounted := ((alook st id).map ModalState.keepMounted).getD false }
  | ModalAction.hide id =>
    match alook st id with
    | none => st
    | some m => aset st id { m with isOpen := false }
  | ModalAction.remove id => adel st id
  | ModalAction.setFlags id f =>
    match alook st id with
    | none => st
    | some m => aset st id (mergeFlags m f)
  | ModalAction.other => st

/-- Does the `reducer` return its input object itself (same reference)?
True exactly on the branches of `core.ts` that `return state`. -/
def reuseRef (st : StoreVal) : ModalAction → Bool
  | ModalAction.show' _ _ => false
  | ModalAction.hide id => (alook st id).isNone
  | ModalAction.remove _ => false
  | ModalAction.setFlags id _ => (alook st id).isNone
  | ModalAction.other => true

/-- Reference-level `reducer`: store objects live in a heap of values, a
transition either returns the input index (the exact same reference) or
appends a freshly allocated object.  The input heap is never written to,
which embeds "never mutates the input state in place". -/
def reduceRef (mounted : List String) (h : List StoreVal) (i : Nat)
    (a : ModalAction) : List StoreVal × Nat :=
  let st := (h.get? i).getD []
  if reuseRef st a then (h, i)
  else (h ++ [reduceVal mounted st a], h.length)

/-! ### Deferred promises

A deferred promise (`createDeferredPromise`) is a cell in an explicit heap.
Resolving an already-resolved cell is a no-op, exactly as a second
`resolve` call on a JS promise. -/

/-- Settlement state of one promise cell. -/
inductive PromState where
  | pending : PromState
  | resolved (v : Val) : PromState
  deriving DecidableEq, Repr

/-- Cell lookup in the promise heap. -/
def hget : List PromState → Nat → Option PromState
  | [], _ => none
  | x :: _, 0 => some x
  | _ :: t, n + 1 => hget t n

/-- `deferred.resolve(v)`: settles cell `p` if it is still pending. -/
def resolveCell (h : List PromState) (p : Nat) (v : Val) : List PromState :=
  match h, p with
  | [], _ => []
  | x :: t, 0 =>
    (match x with
     | PromState.pending => PromState.resolved v
     | PromState.resolved w => PromState.resolved w) :: t
  | x :: t, n + 1 => x :: resolveCell t n v

/-- `ledger[id]?.resolve(v)` (optional chaining: absent entry is a no-op). -/
def resolveEntry (led : List (String × Nat)) (id : String) (v : Val)
    (h : List PromState) : List PromState :=
  match alook led id with
  | some p => resolveCell h p v
  | none => h

@[simp] theorem resolveCell_length (h : List PromState) (p : Nat) (v : Val) :
    (resolveCell h p v).length = h.length := by
  induction h generalizing p with
  | nil => rfl
  | cons x t ih =>
    cases p with
    | zero => cases x <;> simp [resolveCell]
    | succ n => simp [resolveCell, ih]

theorem resolveEntry_length (led : List (String × Nat)) (id : String) (v : Val)
    (h : List PromState) : (resolveEntry led id v h).length = h.length := by
  unfold resolveEntry
  cases alook led id <;> simp

theorem hget_append_lt (h l : List PromState) (q : Nat) (hq : q < h.length) :
    hget (h ++ l) q = hget h q := by
  induction h generalizing q with
  | nil => exact absurd hq (by simp)
  | cons x t ih =>
    cases q with
    | zero => rfl
    | succ n =>
      simp only [List.cons_append, hget]
      exact ih n (by simpa using hq)

theorem hget_append_len (h : List PromState) (x : PromState) :
    hget (h ++ [x]) h.length = some x := by
  induction h with
  | nil => rfl
  | cons y t ih => simpa [hget] using ih

theorem hget_lt_length (h : List PromState) (q : Nat) (s : PromState)
    (hq : hget h q = some s) : q < h.length := by
  induction h generalizing q with
  | nil => exact absurd hq (by simp [hget])
  | cons x t ih =>
    cases q with
    | zero => simp
    | succ n =>
      simp only [hget] at hq
      simpa using ih n hq

theorem hget_resolveCell_ne (h : List PromState) (p q : Nat) (v : Val)
    (hne : q ≠ p) : hget (resolveCell h p v) q = hget h q := by
  induction h generalizing p q with
  | nil => rfl
  | cons x t ih =>
    cases p with
    | zero =>
      cases q with
      | zero => exact absurd rfl hne
      | succ m => cases x <;> rfl
    | succ n =>
      cases q with
      | zero => rfl
      | succ m =>
        simp only [resolveCell, hget]
        exact ih n m (fun he => hne (by simp [he]))

theorem hget_resolveCell_pending (h : List PromState) (p : Nat) (v : Val)
    (hp : hget h p = some PromState.pending) :
    hget (resolveCell h p v) p = some (PromState.resolved v) := by
  induction h generalizing p with
  | nil => exact absurd hp (by simp [hget])
  | cons x t ih =>
    cases p with
    | zero =>
      simp only [hget, Option.some_inj] at hp
      subst hp
      rfl
    | succ n =>
      simp only [hget] at hp
      simpa [resolveCell, hget] using ih n hp

theorem hget_resolveCell_resolved (h : List PromState) (p q : Nat) (v w : Val)
    (hq : hget h q = some (PromState.resolved w)) :
    hget (resolveCell h p v) q = some (PromState.resolved w) := by
  by_cases he : q = p
  · subst he
    induction h generalizing q with
    | nil => exact absurd hq (by simp [hget])
    | cons x t ih =>
      cases q with
      | zero =>
        simp only [hget, Option.some_inj] at hq
        subst hq
        rfl
      | succ n =>
        simp only [hget] at hq
        simpa [resolveCell, hget] using ih n hq
  · rwa [hget_resolveCell_ne h p q v he]

/-- Heap evolution: every already-settled cell keeps its value.  This is
the "at most one resolution per deferred promise" invariant. -/
def heapLe (h h' : List PromState) : Prop :=
  ∀ q v, hget h q = some (PromState.resolved v) →
    hget h' q = some (PromState.resolved v)

theorem heapLe_refl (h : List PromState) : heapLe h h := fun _ _ hq => hq

theorem heapLe_trans {h1 h2 h3 : List PromState}
    (a : heapLe h1 h2) (b : heapLe h2 h3) : heapLe h1 h3 :=
  fun q v hq => b q v (a q v hq)

theorem heapLe_resolveCell (h : List PromState) (p : Nat) (v : Val) :
    heapLe h (resolveCell h p v) :=
  fun q w hq => hget_resolveCell_resolved h p q v w hq

theorem heapLe_resolveEntry (led : List (String × Nat)) (id : String) (v : Val)
    (h : List PromState) : heapLe h (resolveEntry led id v h) := by
  unfold resolveEntry
  cases alook led id with
  | none => exact heapLe_refl h
  | some p => exact heapLe_resolveCell h p v

theorem heapLe_append (h l : List PromState) : heapLe h (h ++ l) := by
  intro q v hq
  rw [hget_append_lt h l q (hget_lt_length h q _ hq)]
  exact hq

/-! ### Coordinator state (`api.ts` module-level ledgers) -/

/-- Lifecycle state tags (`ModalLifecycleState`): `"open" | "closing" | "closed"`. -/
inductive LState where
  | open' : LState
  | closing : LState
  | closed : LState
  deriving DecidableEq, Repr

/-- The whole mutable state of the coordinator: promise heap, the five
id-keyed promise ledgers, the lifecycle-state map, the reactive store
(behind the installed dispatch, i.e. the provider's `useReducer`) and the
view binder's `ALREADY_MOUNTED` side table. -/
structure ApiState where
  heap : List PromState
  modalCallbacks : List (String × Nat)
  hideModalCallbacks : List (String × Nat)
  openedCallbacks : List (String × Nat)
  beforeClosedCallbacks : List (String × Nat)
  closedPromises : List (String × Nat)
  modalStates : List (String × LState)
  store : StoreVal
  mounted : List String
  deriving DecidableEq, Repr

/-- The state before anything happened: empty heap, ledgers and store. -/
def initState : ApiState :=
  { heap := []
    modalCallbacks := []
    hideModalCallbacks := []
    openedCallbacks := []
    beforeClosedCallbacks := []
    closedPromises := []
    modalStates := []
    store := []
    mounted := [] }

/-- `getDispatch()(action)`: the provider's dispatch runs the reducer. -/
def dispatch (a : ModalAction) (s : ApiState) : ApiState :=
  { s with store := reduceVal s.mounted s.store a }

/-- `modalStates[id] = st`. -/
def setLife (id : String) (st : LState) (s : ApiState) : ApiState :=
  { s with modalStates := aset s.modalStates id st }

/-- `modalCallbacks[id]?.resolve(v); delete modalCallbacks[id]` (resolving
an absent entry and deleting an absent key are both no-ops in JS). -/
def resolveMain (id : String) (v : Val) (s : ApiState) : ApiState :=
  { s with
    heap := resolveEntry s.modalCallbacks id v s.heap
    modalCallbacks := adel s.modalCallbacks id }

/-- `beforeClosedCallbacks[id]?.resolve(v); delete beforeClosedCallbacks[id]`. -/
def resolveBefore (id : String) (v : Val) (s : ApiState) : ApiState :=
  { s with
    heap := resolveEntry s.beforeClosedCallbacks id v s.heap
    beforeClosedCallbacks := adel s.beforeClosedCallbacks id }

/-- `hideModalCallbacks[id]?.resolve(v); delete hideModalCallbacks[id]`. -/
def resolveHide (id : String) (v : Val) (s : ApiState) : ApiState :=
  { s with
    heap := resolveEntry s.hideModalCallbacks id v s.heap
    hideModalCallbacks := adel s.hideModalCallbacks id }

/-- `openedCallbacks[id]?.resolve(); delete openedCallbacks[id]`. -/
def resolveOpened (id : String) (s : ApiState) : ApiState :=
  { s with
    heap := resolveEntry s.openedCallbacks id Val.undef s.heap
    openedCallbacks := adel s.openedCallbacks id }

/-- Allocate the fresh main deferred and store its promise both under
`modalCallbacks` and (for `afterClosed()`) under `closedPromises`. -/
def allocMain (id : String) (s : ApiState) : ApiState :=
  { s with
    heap := s.heap ++ [PromState.pending]
    modalCallbacks := aset s.modalCallbacks id s.heap.length
    closedPromises := aset s.closedPromises id s.heap.length }

/-- Allocate the fresh `opened` deferred. -/
def allocOpened (id : String) (s : ApiState) : ApiState :=
  { s with
    heap := s.heap ++ [PromState.pending]
    openedCallbacks := aset s.openedCallbacks id s.heap.length }

/-- Allocate the fresh `beforeClosed` deferred. -/
def allocBefore (id : String) (s : ApiState) : ApiState :=
  { s with
    heap := s.heap ++ [PromState.pending]
    beforeClosedCallbacks := aset s.beforeClosedCallbacks id s.heap.length }

/-- `if (!hideModalCallbacks[id]) hideModalCallbacks[id] = createDeferredPromise();
return hideModalCallbacks[id].promise`. -/
def ensureHide (id : String) (s : ApiState) : ApiState × Nat :=
  match alook s.hideModalCallbacks id with
  | some p => (s, p)
  | none =>
    ({ s with
        heap := s.heap ++ [PromState.pending]
        hideModalCallbacks := aset s.hideModalCallbacks id s.heap.length },
      s.heap.length)

/-- `closeModal(id)` (`api.ts`): set lifecycle `closing`, dispatch `hide`,
resolve a still-pending main promise with `undefined`, and return the
(possibly freshly created) close deferred. -/
def closeModal (id : String) (s : ApiState) : ApiState × Nat :=
  ensureHide id
    (resolveMain id Val.undef
      (dispatch (ModalAction.hide id) (setLife id LState.closing s)))

/-- `ModalRef.close(result)` (`api.ts`): no-op when lifecycle is already
`closed`; otherwise set `closing`, resolve and clear the `beforeClosed`
and main deferreds with `result`, then delegate to `closeModal`. -/
def refClose (id : String) (result : Val) (s : ApiState) : ApiState :=
  if alook s.modalStates id = some LState.closed then s
  else
    (closeModal id
      (resolveMain id result
        (resolveBefore id result (setLife id LState.closing s)))).1

/-- `openModal(id, config)` (`api.ts`), with the identifier already
resolved: set lifecycle `open`, dispatch `show` (and `setFlags` when
`keepMounted` is requested), then allocate the fresh main, `opened` and
`beforeClosed` deferreds, storing the main promise under `closedPromises`
so `afterClosed()` survives `close()`. -/
def openModal (id : String) (d : Option Val) (keepMounted : Bool)
    (s : ApiState) : ApiState :=
  allocBefore id (allocOpened id (allocMain id
    (if keepMounted then
      dispatch (ModalAction.setFlags id { keepMounted := some true })
        (dispatch (ModalAction.show' id d) (setLife id LState.open' s))
    else
      dispatch (ModalAction.show' id d) (setLife id LState.open' s))))

/-- `cleanupModal(id)` (`api.ts`): delete every ledger entry of `id`. -/
def cleanupModal (id : String) (s : ApiState) : ApiState :=
  { s with
    modalCallbacks := adel s.modalCallbacks id
    hideModalCallbacks := adel s.hideModalCallbacks id
    openedCallbacks := adel s.openedCallbacks id
    beforeClosedCallbacks := adel s.beforeClosedCallbacks id
    modalStates := adel s.modalStates id
    closedPromises := adel s.closedPromises id }

/-- `removeModal(id)` (`api.ts`): dispatch `remove`, force-resolve every
still-pending deferred of the identifier with `undefined`, then delete all
ledger entries (`cleanupModal`). -/
def removeModal (id : String) (s : ApiState) : ApiState :=
  cleanupModal id
    (resolveOpened id
      (resolveBefore id Val.undef
        (resolveHide id Val.undef
          (resolveMain id Val.undef (dispatch (ModalAction.remove id) s)))))

/-- `setFlags(id, flags)` (`api.ts`): dispatch only. -/
def setFlagsApi (id : String) (f : Flags) (s : ApiState) : ApiState :=
  dispatch (ModalAction.setFlags id f) s

/-- `markClosed(id)` (`api.ts`): record lifecycle `closed`. -/
def markClosed (id : String) (s : ApiState) : ApiState :=
  setLife id LState.closed s

/-- The delayed cleanup scheduled by `markClosed`: after `CLEANUP_DELAY_MS`
it purges the lifecycle entry and the stored closed promise, provided the
modal is still `closed`. -/
def purgeClosed (id : String) (s : ApiState) : ApiState :=
  if alook s.modalStates id = some LState.closed then
    { s with
      modalStates := adel s.modalStates id
      closedPromises := adel s.closedPromises id }
  else s

/-- `notifyOpened(id)` (`api.ts`): resolve and clear the `opened` deferred. -/
def notifyOpened (id : String) (s : ApiState) : ApiState :=
  resolveOpened id s

/-- `getOpenModals()` (`api.ts`). -/
def getOpenModals (s : ApiState) : List String :=
  (s.modalStates.filter fun kv =>
    kv.2 = LState.open' ∨ kv.2 = LState.closing).map Prod.fst

/-- The loop body of `closeAllModals` for one snapshotted identifier:
set `closing`, resolve and clear `beforeClosed` and the main deferred
with `undefined`, then `closeModal`. -/
def closeOne (s : ApiState) (id : String) : ApiState × Nat :=
  closeModal id
    (resolveMain id Val.undef
      (resolveBefore id Val.undef (setLife id LState.closing s)))

/-- The `for`-loop of `closeAllModals` over the snapshotted identifiers,
collecting the close promises. -/
def closeAllAux : List String → ApiState → List Nat → ApiState × List Nat
  | [], s, ps => (s, ps)
  | id :: t, s, ps =>
    let r := closeOne s id
    closeAllAux t r.1 (ps ++ [r.2])

/-- `closeAllModals()` (`api.ts`): snapshot the open/closing identifiers,
close each and collect the promises handed to `Promise.all`. -/
def closeAllModals (s : ApiState) : ApiState × List Nat :=
  closeAllAux (getOpenModals s) s []

/-- `Promise.all`'s settlement condition over the collected promises. -/
def allSettled (h : List PromState) (ps : List Nat) : Bool :=
  ps.all fun p =>
    match hget h p with
    | some (PromState.resolved _) => true
    | _ => false

/-- The hook-level `close` callback (`hooks.ts`): resolve and clear the
main deferred, then `closeModal`. -/
def hookClose (id : String) (result : Val) (s : ApiState) : ApiState :=
  (closeModal id (resolveMain id result s)).1

/-- The animation-completion handler `onAnimationEnd` (`hooks.ts`): branch
on the current visibility flag; on the closing branch mark closed, resolve
and clear the close deferred, and remove unless `keepMounted` (an absent
store entry behaves as not open and not kept mounted). -/
def animationEnd (id : String) (s : ApiState) : ApiState :=
  match alook s.store id with
  | some info =>
    if info.isOpen then notifyOpened id s
    else if info.keepMounted then resolveHide id Val.undef (markClosed id s)
    else removeModal id (resolveHide id Val.undef (markClosed id s))
  | none => removeModal id (resolveHide id Val.undef (markClosed id s))

/-- The view binder's mount effect: `ALREADY_MOUNTED[id] = true`. -/
def mountId (id : String) (s : ApiState) : ApiState :=
  { s with mounted := if s.mounted.contains id then s.mounted else id :: s.mounted }

/-- The view binder's unmount cleanup: `delete ALREADY_MOUNTED[id]`. -/
def unmountId (id : String) (s : ApiState) : ApiState :=
  { s with mounted := s.mounted.filter fun k => k ≠ id }

/-! ### Every coordinator entry point as one step relation -/

/-- One observable operation on the coordinator (every entry point of
`api.ts` and `hooks.ts` that mutates the shared state). -/
inductive Op where
  | opn (id : String) (d : Option Val) (km : Bool)
  | closeRef (id : String) (r : Val)
  | closeHook (id : String) (r : Val)
  | close (id : String)
  | remove (id : String)
  | closeAll
  | mark (id : String)
  | purge (id : String)
  | notify (id : String)
  | animEnd (id : String)
  | flags (id : String) (f : Flags)
  | mount (id : String)
  | unmount (id : String)
  deriving DecidableEq, Repr

/-- Apply one operation. -/
def applyOp (s : ApiState) : Op → ApiState
  | Op.opn id d km => openModal id d km s
  | Op.closeRef id r => refClose id r s
  | Op.closeHook id r => hookClose id r s
  | Op.close id => (closeModal id s).1
  | Op.remove id => removeModal id s
  | Op.closeAll => (closeAllModals s).1
  | Op.mark id => markClosed id s
  | Op.purge id => purgeClosed id s
  | Op.notify id => notifyOpened id s
  | Op.animEnd id => animationEnd id s
  | Op.flags id f => setFlagsApi id f s
  | Op.mount id => mountId id s
  | Op.unmount id => unmountId id s

/-- Apply a sequence of operations, oldest first. -/
def applyOps (s : ApiState) (ops : List Op) : ApiState :=
  ops.foldl applyOp s

/-! ### Promise-returning accessors of the `ModalRef` -/

/-- A promise handed back by an accessor: either an existing heap cell or
a fresh `Promise.resolve(v)`. -/
inductive PromRef where
  | cell (p : Nat) : PromRef
  | resolvedNow (v : Val) : PromRef
  deriving DecidableEq, Repr

/-- `ModalRef.afterClosed()`: the stored closed promise, or a fresh
already-resolved `undefined` promise when no entry exists. -/
def afterClosed (id : String) (s : ApiState) : PromRef :=
  match alook s.closedPromises id with
  | some p => PromRef.cell p
  | none => PromRef.resolvedNow Val.undef

/-- `ModalRef.beforeClosed()`. -/
def beforeClosed (id : String) (s : ApiState) : PromRef :=
  match alook s.beforeClosedCallbacks id with
  | some p => PromRef.cell p
  | none => PromRef.resolvedNow Val.undef

/-- `ModalRef.afterOpened()`. -/
def afterOpened (id : String) (s : ApiState) : PromRef :=
  match alook s.openedCallbacks id with
  | some p => PromRef.cell p
  | none => PromRef.resolvedNow Val.undef

/-- The value a returned promise has settled at in state `s` (`none` while
still pending). -/
def promValue (s : ApiState) : PromRef → Option Val
  | PromRef.cell p =>
    match hget s.heap p with
    | some (PromState.resolved v) => some v
    | _ => none
  | PromRef.resolvedNow v => some v

/-- `ModalRef.getState()`: total, defaults to `closed`. -/
def getState (id : String) (s : ApiState) : LState :=
  (alook s.modalStates id).getD LState.closed

/-! ### Settled promises are never re-settled

Every operation either allocates fresh pending cells or resolves cells; a
cell already resolved keeps its value forever.  This is the ledger's
"at most one resolution per deferred promise" guarantee. -/

@[simp] theorem dispatch_heap (a : ModalAction) (s : ApiState) :
    (dispatch a s).heap = s.heap := rfl

@[simp] theorem setLife_heap (id : String) (st : LState) (s : ApiState) :
    (setLife id st s).heap = s.heap := rfl

@[simp] theorem allocMain_heap (id : String) (s : ApiState) :
    (allocMain id s).heap = s.heap ++ [PromState.pending] := rfl

@[simp] theorem allocOpened_heap (id : String) (s : ApiState) :
    (allocOpened id s).heap = s.heap ++ [PromState.pending] := rfl

@[simp] theorem allocBefore_heap (id : String) (s : ApiState) :
    (allocBefore id s).heap = s.heap ++ [PromState.pending] := rfl

theorem resolveMain_heapLe (id : String) (v : Val) (s : ApiState) :
    heapLe s.heap (resolveMain id v s).heap :=
  heapLe_resolveEntry _ _ _ _

theorem resolveBefore_heapLe (id : String) (v : Val) (s : ApiState) :
    heapLe s.heap (resolveBefore id v s).heap :=
  heapLe_resolveEntry _ _ _ _

theorem resolveHide_heapLe (id : String) (v : Val) (s : ApiState) :
    heapLe s.heap (resolveHide id v s).heap :=
  heapLe_resolveEntry _ _ _ _

theorem resolveOpened_heapLe (id : String) (s : ApiState) :
    heapLe s.heap (resolveOpened id s).heap :=
  heapLe_resolveEntry _ _ _ _

theorem ensureHide_heapLe (id : String) (s : ApiState) :
    heapLe s.heap (ensureHide id s).1.heap := by
  unfold ensureHide
  split
  · exact heapLe_refl _
  · exact heapLe_append _ _

theorem closeModal_heapLe (id : String) (s : ApiState) :
    heapLe s.heap (closeModal id s).1.heap := by
  unfold closeModal
  have t1 := resolveMain_heapLe id Val.undef
    (dispatch (ModalAction.hide id) (setLife id LState.closing s))
  have t2 := ensureHide_heapLe id
    (resolveMain id Val.undef
      (dispatch (ModalAction.hide id) (setLife id LState.closing s)))
  exact heapLe_trans t1 t2

theorem refClose_heapLe (id : String) (r : Val) (s : ApiState) :
    heapLe s.heap (refClose id r s).heap := by
  unfold refClose
  split
  · exact heapLe_refl _
  · have t1 := resolveBefore_heapLe id r (setLife id LState.closing s)
    have t2 := resolveMain_heapLe id r
      (resolveBefore id r (setLife id LState.closing s))
    have t3 := closeModal_heapLe id
      (resolveMain id r (resolveBefore id r (setLife id LState.closing s)))
    exact heapLe_trans t1 (heapLe_trans t2 t3)

theorem openModal_heapLe (id : String) (d : Option Val) (km : Bool) (s : ApiState) :
    heapLe s.heap (openModal id d km s).heap := by
  unfold openModal
  intro q v hq
  have h1 : hget (s.heap ++ [PromState.pending] ++ [PromState.pending] ++
      [PromState.pending]) q = some (PromState.resolved v) := by
    rw [hget_append_lt, hget_append_lt, hget_append_lt]
    · exact hq
    · exact hget_lt_length _ _ _ hq
    · simpa using Nat.lt_succ_of_lt (hget_lt_length _ _ _ hq)
    · have := hget_lt_length _ _ _ hq
      simp only [List.length_append, List.length_cons, List.length_nil]
      omega
  cases km <;> simpa [allocBefore, allocOpened, allocMain, dispatch, setLife,
    List.append_assoc] using h1

theorem removeModal_heapLe (id : String) (s : ApiState) :
    heapLe s.heap (removeModal id s).heap := by
  unfold removeModal
  have t1 := resolveMain_heapLe id Val.undef (dispatch (ModalAction.remove id) s)
  have t2 := resolveHide_heapLe id Val.undef
    (resolveMain id Val.undef (dispatch (ModalAction.remove id) s))
  have t3 := resolveBefore_heapLe id Val.undef
    (resolveHide id Val.undef
      (resolveMain id Val.undef (dispatch (ModalAction.remove id) s)))
  have t4 := resolveOpened_heapLe id
    (resolveBefore id Val.undef
      (resolveHide id Val.undef
        (resolveMain id Val.undef (dispatch (ModalAction.remove id) s))))
  exact heapLe_trans t1 (heapLe_trans t2 (heapLe_trans t3 t4))

theorem hookClose_heapLe (id : String) (r : Val) (s : ApiState) :
    heapLe s.heap (hookClose id r s).heap := by
  unfold hookClose
  have t1 := resolveMain_heapLe id r s
  have t2 := closeModal_heapLe id (resolveMain id r s)
  exact heapLe_trans t1 t2

theorem animationEnd_heapLe (id : String) (s : ApiState) :
    heapLe s.heap (animationEnd id s).heap := by
  unfold animationEnd
  have t1 := resolveHide_heapLe id Val.undef (markClosed id s)
  have t2 := removeModal_heapLe id (resolveHide id Val.undef (markClosed id s))
  split
  · split
    · exact resolveOpened_heapLe _ _
    · split
      · exact t1
      · exact heapLe_trans t1 t2
  · exact heapLe_trans t1 t2

theorem closeOne_heapLe (s : ApiState) (id : String) :
    heapLe s.heap (closeOne s id).1.heap := by
  unfold closeOne
  have t1 := resolveBefore_heapLe id Val.undef (setLife id LState.closing s)
  have t2 := resolveMain_heapLe id Val.undef
    (resolveBefore id Val.undef (setLife id LState.closing s))
  have t3 := closeModal_heapLe id
    (resolveMain id Val.undef
      (resolveBefore id Val.undef (setLife id LState.closing s)))
  exact heapLe_trans t1 (heapLe_trans t2 t3)

theorem closeAllAux_heapLe (ids : List String) (s : ApiState) (ps : List Nat) :
    heapLe s.heap (closeAllAux ids s ps).1.heap := by
  induction ids generalizing s ps with
  | nil => exact heapLe_refl _
  | cons id t ih =>
    exact heapLe_trans (closeOne_heapLe s id) (ih _ _)

theorem applyOp_heapLe (s : ApiState) (o : Op) :
    heapLe s.heap (applyOp s o).heap := by
  cases o with
  | opn id d km => exact openModal_heapLe id d km s
  | closeRef id r => exact refClose_heapLe id r s
  | closeHook id r => exact hookClose_heapLe id r s
  | close id => exact closeModal_heapLe id s
  | remove id => exact removeModal_heapLe id s
  | closeAll => exact closeAllAux_heapLe _ s []
  | mark id => exact heapLe_refl _
  | purge id =>
    show heapLe s.heap (purgeClosed id s).heap
    unfold purgeClosed
    split
    · exact heapLe_refl _
    · exact heapLe_refl _
  | notify id => exact resolveOpened_heapLe id s
  | animEnd id => exact animationEnd_heapLe id s
  | flags id f => exact heapLe_refl _
  | mount id => exact heapLe_refl _
  | unmount id => exact heapLe_refl _

theorem applyOps_heapLe (s : ApiState) (ops : List Op) :
    heapLe s.heap (applyOps s ops).heap := by
  induction ops generalizing s with
  | nil => exact heapLe_refl _
  | cons o t ih => exact heapLe_trans (applyOp_heapLe s o) (ih (applyOp s o))

/-- A settled promise keeps its value across any sequence of operations:
the value seen by a promise accessor can never change once it exists. -/
theorem promValue_stable (s : ApiState) (ops : List Op) (r : PromRef) (v : Val)
    (hv : promValue s r = some v) : promValue (applyOps s ops) r = some v := by
  cases r with
  | resolvedNow w => exact hv
  | cell p =>
    simp only [promValue] at hv ⊢
    cases hp : hget s.heap p with
    | none => rw [hp] at hv; exact absurd hv (by simp)
    | some ps =>
      cases ps with
      | pending => rw [hp] at hv; exact absurd hv (by simp)
      | resolved w =>
        rw [hp] at hv
        rw [applyOps_heapLe s ops p w hp]
        exact hv

/-! ### Orphaned cells stay untouched

A promise cell no ledger points to can never be resolved again: every
operation resolves cells only through ledger lookups and only stores
freshly allocated cell indices.  This settles the fate of promises from a
superseded open cycle. -/

/-- Cell `q` exists but no ledger entry of any identifier references it. -/
structure FreeCell (s : ApiState) (q : Nat) : Prop where
  len : q < s.heap.length
  mainF : ∀ i, alook s.modalCallbacks i ≠ some q
  hideF : ∀ i, alook s.hideModalCallbacks i ≠ some q
  openedF : ∀ i, alook s.openedCallbacks i ≠ some q
  beforeF : ∀ i, alook s.beforeClosedCallbacks i ≠ some q
  closedF : ∀ i, alook s.closedPromises i ≠ some q

theorem free_aset {led : List (String × Nat)} {k : String} {p q : Nat}
    (hpq : p ≠ q) (hfree : ∀ i, alook led i ≠ some q) :
    ∀ i, alook (aset led k p) i ≠ some q := by
  intro i hi
  rcases alook_aset_cases led k i p q hi with ⟨_, hq⟩ | hold
  · exact hpq hq.symm
  · exact hfree i hold

theorem free_adel {led : List (String × Nat)} {k : String} {q : Nat}
    (hfree : ∀ i, alook led i ≠ some q) :
    ∀ i, alook (adel led k) i ≠ some q := by
  intro i hi
  exact hfree i (alook_adel_sub led k i q hi)

theorem hget_resolveEntry_free {led : List (String × Nat)} {id : String}
    {v : Val} {h : List PromState} {q : Nat}
    (hfree : ∀ i, alook led i ≠ some q) :
    hget (resolveEntry led id v h) q = hget h q := by
  unfold resolveEntry
  cases hl : alook led id with
  | none => rfl
  | some p =>
    exact hget_resolveCell_ne h p q v fun he => hfree id (by rw [hl, he])

/-- One-step preservation: `f` keeps orphaned cells orphaned and untouched. -/
def FreePres (f : ApiState → ApiState) : Prop :=
  ∀ s q, FreeCell s q →
    FreeCell (f s) q ∧ hget (f s).heap q = hget s.heap q

theorem freePres_dispatch (a : ModalAction) : FreePres (dispatch a) :=
  fun _ _ h => ⟨⟨h.len, h.mainF, h.hideF, h.openedF, h.beforeF, h.closedF⟩, rfl⟩

theorem freePres_setLife (id : String) (st : LState) : FreePres (setLife id st) :=
  fun _ _ h => ⟨⟨h.len, h.mainF, h.hideF, h.openedF, h.beforeF, h.closedF⟩, rfl⟩

theorem freePres_resolveMain (id : String) (v : Val) :
    FreePres (resolveMain id v) := by
  intro s q h
  refine ⟨⟨?_, free_adel h.mainF, h.hideF, h.openedF, h.beforeF, h.closedF⟩, ?_⟩
  · show q < (resolveEntry s.modalCallbacks id v s.heap).length
    rw [resolveEntry_length]
    exact h.len
  · exact hget_resolveEntry_free h.mainF

theorem freePres_resolveBefore (id : String) (v : Val) :
    FreePres (resolveBefore id v) := by
  intro s q h
  refine ⟨⟨?_, h.mainF, h.hideF, h.openedF, free_adel h.beforeF, h.closedF⟩, ?_⟩
  · show q < (resolveEntry s.beforeClosedCallbacks id v s.heap).length
    rw [resolveEntry_length]
    exact h.len
  · exact hget_resolveEntry_free h.beforeF

theorem freePres_resolveHide (id : String) (v : Val) :
    FreePres (resolveHide id v) := by
  intro s q h
  refine ⟨⟨?_, h.mainF, free_adel h.hideF, h.openedF, h.beforeF, h.closedF⟩, ?_⟩
  · show q < (resolveEntry s.hideModalCallbacks id v s.heap).length
    rw [resolveEntry_length]
    exact h.len
  · exact hget_resolveEntry_free h.hideF

theorem freePres_resolveOpened (id : String) : FreePres (resolveOpened id) := by
  intro s q h
  refine ⟨⟨?_, h.mainF, h.hideF, free_adel h.openedF, h.beforeF, h.closedF⟩, ?_⟩
  · show q < (resolveEntry s.openedCallbacks id Val.undef s.heap).length
    rw [resolveEntry_length]
    exact h.len
  · exact hget_resolveEntry_free h.openedF

theorem freePres_allocMain (id : String) : FreePres (allocMain id) := by
  intro s q h
  have hne : s.heap.length ≠ q := Nat.ne_of_gt h.len
  refine ⟨⟨?_, free_aset hne h.mainF, h.hideF, h.openedF, h.beforeF,
    free_aset hne h.closedF⟩, ?_⟩
  · show q < (s.heap ++ [PromState.pending]).length
    have hl := h.len
    simp only [List.length_append, List.length_cons, List.length_nil]
    omega
  · exact hget_append_lt s.heap _ q h.len

theorem freePres_allocOpened (id : String) : FreePres (allocOpened id) := by
  intro s q h
  have hne : s.heap.length ≠ q := Nat.ne_of_gt h.len
  refine ⟨⟨?_, h.mainF, h.hideF, free_aset hne h.openedF, h.beforeF, h.closedF⟩, ?_⟩
  · show q < (s.heap ++ [PromState.pending]).length
    have hl := h.len
    simp only [List.length_append, List.length_cons, List.length_nil]
    omega
  · exact hget_append_lt s.heap _ q h.len

theorem freePres_allocBefore (id : String) : FreePres (allocBefore id) := by
  intro s q h
  have hne : s.heap.length ≠ q := Nat.ne_of_gt h.len
  refine ⟨⟨?_, h.mainF, h.hideF, h.openedF, free_aset hne h.beforeF, h.closedF⟩, ?_⟩
  · show q < (s.heap ++ [PromState.pending]).length
    have hl := h.len
    simp only [List.length_append, List.length_cons, List.length_nil]
    omega
  · exact hget_append_lt s.heap _ q h.len

theorem freePres_ensureHide (id : String) :
    ∀ s q, FreeCell s q →
      FreeCell (ensureHide id s).1 q ∧
        hget (ensureHide id s).1.heap q = hget s.heap q := by
  intro s q h
  unfold ensureHide
  split
  · exact ⟨h, rfl⟩
  · have hne : s.heap.length ≠ q := Nat.ne_of_gt h.len
    refine ⟨⟨?_, h.mainF, free_aset hne h.hideF, h.openedF, h.beforeF, h.closedF⟩, ?_⟩
    · show q < (s.heap ++ [PromState.pending]).length
      have hl := h.len
      simp only [List.length_append, List.length_cons, List.length_nil]
      omega
    · exact hget_append_lt s.heap _ q h.len

theorem freePres_cleanupModal (id : String) : FreePres (cleanupModal id) :=
  fun _ _ h =>
    ⟨⟨h.len, free_adel h.mainF, free_adel h.hideF, free_adel h.openedF,
      free_adel h.beforeF, free_adel h.closedF⟩, rfl⟩

theorem freePres_markClosed (id : String) : FreePres (markClosed id) :=
  freePres_setLife id LState.closed

theorem freePres_purgeClosed (id : String) : FreePres (purgeClosed id) := by
  intro s q h
  unfold purgeClosed
  split
  · exact ⟨⟨h.len, h.mainF, h.hideF, h.openedF, h.beforeF,
      free_adel h.closedF⟩, rfl⟩
  · exact ⟨h, rfl⟩

theorem freePres_closeModal (id : String) :
    ∀ s q, FreeCell s q →
      FreeCell (closeModal id s).1 q ∧
        hget (closeModal id s).1.heap q = hget s.heap q := by
  intro s q h
  unfold closeModal
  have h1 := freePres_setLife id LState.closing s q h
  have h2 := freePres_dispatch (ModalAction.hide id) _ q h1.1
  have h3 := freePres_resolveMain id Val.undef _ q h2.1
  have h4 := freePres_ensureHide id _ q h3.1
  exact ⟨h4.1, by rw [h4.2, h3.2, h2.2, h1.2]⟩

theorem freePres_refClose (id : String) (r : Val) : FreePres (refClose id r) := by
  intro s q h
  unfold refClose
  split
  · exact ⟨h, rfl⟩
  · have h1 := freePres_setLife id LState.closing s q h
    have h2 := freePres_resolveBefore id r _ q h1.1
    have h3 := freePres_resolveMain id r _ q h2.1
    have h4 := freePres_closeModal id _ q h3.1
    exact ⟨h4.1, by rw [h4.2, h3.2, h2.2, h1.2]⟩

theorem freePres_openModal (id : String) (d : Option Val) (km : Bool) :
    FreePres (openModal id d km) := by
  intro s q h
  unfold openModal
  have h1 := freePres_setLife id LState.open' s q h
  have h2 := freePres_dispatch (ModalAction.show' id d) _ q h1.1
  by_cases hk : km = true
  · rw [if_pos hk]
    have h3 := freePres_dispatch
      (ModalAction.setFlags id { keepMounted := some true }) _ q h2.1
    have h4 := freePres_allocMain id _ q h3.1
    have h5 := freePres_allocOpened id _ q h4.1
    have h6 := freePres_allocBefore id _ q h5.1
    exact ⟨h6.1, by rw [h6.2, h5.2, h4.2, h3.2, h2.2, h1.2]⟩
  · rw [if_neg hk]
    have h4 := freePres_allocMain id _ q h2.1
    have h5 := freePres_allocOpened id _ q h4.1
    have h6 := freePres_allocBefore id _ q h5.1
    exact ⟨h6.1, by rw [h6.2, h5.2, h4.2, h2.2, h1.2]⟩

theorem freePres_removeModal (id : String) : FreePres (removeModal id) := by
  intro s q h
  unfold removeModal
  have h1 := freePres_dispatch (ModalAction.remove id) s q h
  have h2 := freePres_resolveMain id Val.undef _ q h1.1
  have h3 := freePres_resolveHide id Val.undef _ q h2.1
  have h4 := freePres_resolveBefore id Val.undef _ q h3.1
  have h5 := freePres_resolveOpened id _ q h4.1
  have h6 := freePres_cleanupModal id _ q h5.1
  exact ⟨h6.1, by rw [h6.2, h5.2, h4.2, h3.2, h2.2, h1.2]⟩

theorem freePres_hookClose (id : String) (r : Val) : FreePres (hookClose id r) := by
  intro s q h
  unfold hookClose
  have h1 := freePres_resolveMain id r s q h
  have h2 := freePres_closeModal id _ q h1.1
  exact ⟨h2.1, by rw [h2.2, h1.2]⟩

theorem freePres_animationEnd (id : String) : FreePres (animationEnd id) := by
  intro s q h
  unfold animationEnd
  have h1 := freePres_markClosed id s q h
  have h2 := freePres_resolveHide id Val.undef _ q h1.1
  have h3 := freePres_removeModal id _ q h2.1
  split
  · split
    · exact freePres_resolveOpened id s q h
    · split
      · exact ⟨h2.1, by rw [h2.2, h1.2]⟩
      · exact ⟨h3.1, by rw [h3.2, h2.2, h1.2]⟩
  · exact ⟨h3.1, by rw [h3.2, h2.2, h1.2]⟩

theorem freePres_closeOne (id : String) :
    ∀ s q, FreeCell s q →
      FreeCell (closeOne s id).1 q ∧
        hget (closeOne s id).1.heap q = hget s.heap q := by
  intro s q h
  unfold closeOne
  have h1 := freePres_setLife id LState.closing s q h
  have h2 := freePres_resolveBefore id Val.undef _ q h1.1
  have h3 := freePres_resolveMain id Val.undef _ q h2.1
  have h4 := freePres_closeModal id _ q h3.1
  exact ⟨h4.1, by rw [h4.2, h3.2, h2.2, h1.2]⟩

theorem freePres_closeAllAux (ids : List String) :
    ∀ s q ps, FreeCell s q →
      FreeCell (closeAllAux ids s ps).1 q ∧
        hget (closeAllAux ids s ps).1.heap q = hget s.heap q := by
  induction ids with
  | nil => exact fun s q ps h => ⟨h, rfl⟩
  | cons id t ih =>
    intro s q ps h
    have h1 := freePres_closeOne id s q h
    have h2 := ih (closeOne s id).1 q (ps ++ [(closeOne s id).2]) h1.1
    exact ⟨h2.1, by rw [show closeAllAux (id :: t) s ps =
      closeAllAux t (closeOne s id).1 (ps ++ [(closeOne s id).2]) from rfl,
      h2.2, h1.2]⟩

theorem freePres_applyOp (o : Op) :
    ∀ s q, FreeCell s q →
      FreeCell (applyOp s o) q ∧ hget (applyOp s o).heap q = hget s.heap q := by
  intro s q h
  cases o with
  | opn id d km => exact freePres_openModal id d km s q h
  | closeRef id r => exact freePres_refClose id r s q h
  | closeHook id r => exact freePres_hookClose id r s q h
  | close id => exact freePres_closeModal id s q h
  | remove id => exact freePres_removeModal id s q h
  | closeAll => exact freePres_closeAllAux _ s q [] h
  | mark id => exact freePres_markClosed id s q h
  | purge id => exact freePres_purgeClosed id s q h
  | notify id => exact freePres_resolveOpened id s q h
  | animEnd id => exact freePres_animationEnd id s q h
  | flags id f => exact freePres_dispatch _ s q h
  | mount id => exact ⟨⟨h.len, h.mainF, h.hideF, h.openedF, h.beforeF, h.closedF⟩, rfl⟩
  | unmount id => exact ⟨⟨h.len, h.mainF, h.hideF, h.openedF, h.beforeF, h.closedF⟩, rfl⟩

/-- An orphaned cell is untouched by any whole sequence of operations. -/
theorem freeCell_applyOps (ops : List Op) (s : ApiState) (q : Nat)
    (h : FreeCell s q) :
    FreeCell (applyOps s ops) q ∧
      hget (applyOps s ops).heap q = hget s.heap q := by
  induction ops generalizing s with
  | nil => exact ⟨h, rfl⟩
  | cons o t ih =>
    have h1 := freePres_applyOp o s q h
    have h2 := ih (applyOp s o) h1.1
    exact ⟨h2.1, by rw [show applyOps s (o :: t) = applyOps (applyOp s o) t from rfl,
      h2.2, h1.2]⟩

/-- A sample coordinator state: one modal `"m"` open with all four
deferreds (cells 0–3) pending. -/
def sampleState : ApiState :=
  { heap := [PromState.pending, PromState.pending, PromState.pending,
      PromState.pending]
    modalCallbacks := [("m", 0)]
    hideModalCallbacks := [("m", 1)]
    openedCallbacks := [("m", 2)]
    beforeClosedCallbacks := [("m", 3)]
    closedPromises := [("m", 0)]
    modalStates := [("m", LState.open')]
    store := [("m",
      { modalId := "m", data := none, isOpen := true, delayOpen := false
        keepMounted := false })]
    mounted := ["m"] }

/-! ### Claim theorems -/

/-- A cell that is pending or already settled at `v`. -/
def PendOrRes (v : Val) (h : List PromState) (p : Nat) : Prop :=
  hget h p = some PromState.pending ∨
    hget h p = some (PromState.resolved v)

theorem pendOrRes_resolveEntry (led : List (String × Nat)) (id : String)
    (v : Val) (h : List PromState) (p : Nat) (hp : PendOrRes v h p) :
    PendOrRes v (resolveEntry led id v h) p := by
  unfold resolveEntry
  cases hl : alook led id with
  | none => exact hp
  | some q =>
    by_cases he : p = q
    · subst he
      cases hp with
      | inl hpend => exact Or.inr (hget_resolveCell_pending h p v hpend)
      | inr hres => exact Or.inr (hget_resolveCell_resolved h p p v v hres)
    · show PendOrRes v (resolveCell h q v) p
      unfold PendOrRes
      rw [hget_resolveCell_ne h q p v he]
      exact hp

theorem resolveEntry_settles (led : List (String × Nat)) (id : String)
    (v : Val) (h : List PromState) (p : Nat) (hl : alook led id = some p)
    (hp : PendOrRes v h p) :
    hget (resolveEntry led id v h) p = some (PromState.resolved v) := by
  unfold resolveEntry
  rw [hl]
  cases hp with
  | inl hpend => exact hget_resolveCell_pending h p v hpend
  | inr hres => exact hget_resolveCell_resolved h p p v v hres

/-- Helper: when the reducer reports "same reference", the transition is
also a value-level identity. -/
theorem reduceVal_of_reuseRef (mounted : List String) (st : StoreVal)
    (a : ModalAction) (h : reuseRef st a = true) :
    reduceVal mounted st a = st := by
  cases a with
  | show' id d => simp [reuseRef] at h
  | hide id =>
    simp only [reuseRef, Option.isNone_iff_eq_none] at h
    simp [reduceVal, h]
  | remove id => simp [reuseRef] at h
  | setFlags id f =>
    simp only [reuseRef, Option.isNone_iff_eq_none] at h
    simp [reduceVal, h]
  | other => rfl

/-- C3 (amended): the reducer never mutates the input object (the heap of
existing store objects is preserved verbatim); the result is the input
reference exactly for `hide`/`set-flags` on an absent identifier and for
unknown action types, while `show` and `remove` always return a freshly
allocated object — `remove` even when the identifier is absent — whose
value is the reducer's value-level transition. -/
theorem reducer_reference_discipline (mounted : List String) (h : List StoreVal)
    (i : Nat) (a : ModalAction) (hi : i < h.length) :
    (reduceRef mounted h i a).1.take h.length = h
    ∧ (reduceRef mounted h i a).2 < (reduceRef mounted h i a).1.length
    ∧ (reduceRef mounted h i a).1.get? (reduceRef mounted h i a).2 =
        some (reduceVal mounted ((h.get? i).getD []) a)
    ∧ ((reduceRef mounted h i a).2 = i ↔ reuseRef ((h.get? i).getD []) a = true)
    ∧ (reuseRef ((h.get? i).getD []) a = false →
        (reduceRef mounted h i a).2 = h.length)
    ∧ (reuseRef ((h.get? i).getD []) a = true →
        (reduceRef mounted h i a).1 = h) := by
  have hsome : ∃ st, h.get? i = some st := by
    cases hq : h.get? i with
    | some st => exact ⟨st, rfl⟩
    | none => exact absurd (List.get?_eq_none.mp hq) (Nat.not_le_of_lt hi)
  obtain ⟨st, hst⟩ := hsome
  unfold reduceRef
  rw [hst]
  simp only [Option.getD_some]
  by_cases hr : reuseRef st a = true
  · rw [if_pos hr]
    refine ⟨List.take_length h, hi, ?_, by simp [hr], ?_, fun _ => rfl⟩
    · show h.get? i = some (reduceVal mounted st a)
      rw [reduceVal_of_reuseRef mounted st a hr]
      exact hst
    · intro hf
      rw [hr] at hf
      cases hf
  · rw [if_neg hr]
    have hne : h.length ≠ i := Nat.ne_of_gt hi
    refine ⟨List.take_left h _, by simp, ?_, ?_, fun _ => rfl,
      fun ht => absurd ht hr⟩
    · show (h ++ [reduceVal mounted st a]).get? h.length =
        some (reduceVal mounted st a)
      rw [List.get?_append_right (Nat.le_refl h.length)]
      simp
    · simp only [Bool.not_eq_true] at hr
      simp [hne, hr]

/-- C3 (counterexample to the original claim): dispatching `remove` for an
identifier absent from the store is a no-op on the value, yet the reducer
returns a fresh object (a new heap index), not the exact same reference. -/
theorem reducer_remove_absent_not_same_ref :
    (reduceRef [] [([] : StoreVal)] 0 (ModalAction.remove "x")).2 ≠ 0
    ∧ (reduceRef [] [([] : StoreVal)] 0 (ModalAction.remove "x")).1.get?
        (reduceRef [] [([] : StoreVal)] 0 (ModalAction.remove "x")).2 =
      ([([] : StoreVal)] : List StoreVal).get? 0 := by
  constructor
  · decide
  · decide

/-- C3 witness: the amended discipline at a concrete input (`hide` of an
absent identifier on a one-object heap reuses index 0). -/
theorem reducer_reference_discipline_witness :
    (reduceRef [] [([] : StoreVal)] 0 (ModalAction.hide "x")).2 = 0
    ∧ (reduceRef [] [([] : StoreVal)] 0 (ModalAction.hide "x")).1 =
        [([] : StoreVal)] := by
  have h := reducer_reference_discipline [] [([] : StoreVal)] 0
    (ModalAction.hide "x") (by decide)
  exact ⟨(h.2.2.2.1).mpr (by decide), h.2.2.2.2.2 (by decide)⟩

/-- C7: the `show` action upserts the identifier's entry, setting `isOpen`
exactly to the view layer's already-mounted flag and `delayOpen` to its
negation, storing the payload, and leaving every other identifier's entry
unchanged. -/
theorem show_upserts_mounted_visibility (mounted : List String) (st : StoreVal)
    (id : String) (d : Option Val) :
    (∃ e, alook (reduceVal mounted st (ModalAction.show' id d)) id = some e
      ∧ e.isOpen = mounted.contains id
      ∧ e.delayOpen = !mounted.contains id
      ∧ e.data = d)
    ∧ ∀ i, i ≠ id →
        alook (reduceVal mounted st (ModalAction.show' id d)) i = alook st i := by
  constructor
  · exact ⟨_, alook_aset_self st id _, rfl, rfl, rfl⟩
  · intro i hi
    exact alook_aset_ne st id i _ fun he => hi he.symm

/-- C9: `getState()` is total: it answers `closed` for an identifier that
was never opened (the initial state) and for one whose lifecycle entry was
purged by the delayed post-close cleanup, and it can only ever answer
`open`, `closing` or `closed`. -/
theorem getState_total (s : ApiState) (id : String) :
    getState id initState = LState.closed
    ∧ getState id (purgeClosed id (markClosed id s)) = LState.closed
    ∧ alook (purgeClosed id (markClosed id s)).modalStates id = none
    ∧ (getState id s = LState.open' ∨ getState id s = LState.closing ∨
        getState id s = LState.closed) := by
  have hmark : alook (markClosed id s).modalStates id = some LState.closed :=
    alook_aset_self s.modalStates id LState.closed
  have hpurge : (purgeClosed id (markClosed id s)).modalStates =
      adel (markClosed id s).modalStates id := by
    unfold purgeClosed
    rw [if_pos hmark]
  refine ⟨rfl, ?_, ?_, ?_⟩
  · unfold getState
    rw [hpurge, alook_adel_self]
    rfl
  · rw [hpurge, alook_adel_self]
  · unfold getState
    cases hst : alook s.modalStates id with
    | none => exact Or.inr (Or.inr rfl)
    | some st => cases st with
      | open' => exact Or.inl rfl
      | closing => exact Or.inr (Or.inl rfl)
      | closed => exact Or.inr (Or.inr rfl)

/-! ### The uid generator (`core.ts`: `uidSeed` / `getUid` / `resetUidSeed`)

`getUid` returns `` `_modal_${uidSeed++}` ``; the template literal renders
the counter in decimal, which Lean's `Nat.repr` reproduces.  Injectivity
of the decimal rendering is proved from scratch below. -/

/-- Decimal digit characters of `n`, most significant first: the list the
fuel-based `Nat.toDigitsCore` produces. -/
def decChars (n : Nat) : List Char :=
  if n < 10 then [Nat.digitChar n]
  else decChars (n / 10) ++ [Nat.digitChar (n % 10)]
termination_by n
decreasing_by exact Nat.div_lt_self (by omega) (by omega)

theorem decChars_lt (n : Nat) (h : n < 10) : decChars n = [Nat.digitChar n] := by
  rw [decChars, if_pos h]

theorem decChars_ge (n : Nat) (h : ¬n < 10) :
    decChars n = decChars (n / 10) ++ [Nat.digitChar (n % 10)] := by
  rw [decChars, if_neg h]

theorem decChars_length_pos (n : Nat) : 0 < (decChars n).length := by
  by_cases h : n < 10
  · rw [decChars_lt n h]
    simp
  · rw [decChars_ge n h]
    simp

theorem toDigitsCore_eq_decChars (fuel : Nat) :
    ∀ n ds, n < fuel → Nat.toDigitsCore 10 fuel n ds = decChars n ++ ds := by
  induction fuel with
  | zero => intro n ds h; exact absurd h (Nat.not_lt_zero n)
  | succ f ih =>
    intro n ds h
    show (if n / 10 = 0 then Nat.digitChar (n % 10) :: ds
      else Nat.toDigitsCore 10 f (n / 10) (Nat.digitChar (n % 10) :: ds)) =
      decChars n ++ ds
    by_cases hz : n / 10 = 0
    · have hlt : n < 10 := by omega
      rw [if_pos hz, decChars_lt n hlt, Nat.mod_eq_of_lt hlt]
      rfl
    · have hge : ¬n < 10 := by omega
      have hfuel : n / 10 < f := by omega
      rw [if_neg hz, ih (n / 10) _ hfuel, decChars_ge n hge,
        List.append_assoc]
      rfl

theorem digitChar_inj_lt :
    ∀ m, m < 10 → ∀ n, n < 10 → Nat.digitChar m = Nat.digitChar n → m = n := by
  decide

theorem decChars_inj : ∀ m n : Nat, decChars m = decChars n → m = n := by
  intro m
  induction m using Nat.strong_induction_on with
  | _ m ih =>
    intro n h
    by_cases hm : m < 10 <;> by_cases hn : n < 10
    · rw [decChars_lt m hm, decChars_lt n hn] at h
      have hc : Nat.digitChar m = Nat.digitChar n := by injection h
      exact digitChar_inj_lt m hm n hn hc
    · rw [decChars_lt m hm, decChars_ge n hn] at h
      have := congrArg List.length h
      simp only [List.length_cons, List.length_nil, List.length_append] at this
      have := decChars_length_pos (n / 10)
      omega
    · rw [decChars_ge m hm, decChars_lt n hn] at h
      have := congrArg List.length h
      simp only [List.length_cons, List.length_nil, List.length_append] at this
      have := decChars_length_pos (m / 10)
      omega
    · rw [decChars_ge m hm, decChars_ge n hn] at h
      have hparts := List.append_inj' h (by simp)
      have hdiv : m / 10 = n / 10 :=
        ih (m / 10) (Nat.div_lt_self (by omega) (by omega)) (n / 10) hparts.1
      have hmod : m % 10 = n % 10 := by
        have hchar : Nat.digitChar (m % 10) = Nat.digitChar (n % 10) := by
          have := hparts.2
          simpa using this
        exact digitChar_inj_lt (m % 10) (Nat.mod_lt m (by omega)) (n % 10)
          (Nat.mod_lt n (by omega)) hchar
      omega

theorem natRepr_inj (m n : Nat) (h : Nat.repr m = Nat.repr n) : m = n := by
  have hdata : (Nat.toDigits 10 m).asString.data =
      (Nat.toDigits 10 n).asString.data := congrArg String.data h
  have hl : Nat.toDigits 10 m = Nat.toDigits 10 n := hdata
  unfold Nat.toDigits at hl
  rw [toDigitsCore_eq_decChars (m + 1) m [] (Nat.lt_succ_self m),
    toDigitsCore_eq_decChars (n + 1) n [] (Nat.lt_succ_self n),
    List.append_nil, List.append_nil] at hl
  exact decChars_inj m n hl

/-- `getUid()` (`core.ts`): returns `` `_modal_${uidSeed++}` `` — the
produced identifier together with the incremented seed. -/
def getUid (seed : Nat) : String × Nat :=
  ("_modal_" ++ Nat.repr seed, seed + 1)

/-- `resetUidSeed()` (`core.ts`): `uidSeed = 0`. -/
def resetUidSeed : Nat := 0

/-- The only two operations that touch `uidSeed`. -/
inductive UidOp where
  | gen : UidOp
  | reset : UidOp
  deriving DecidableEq, Repr

/-- Seed evolution under one operation. -/
def stepUid (seed : Nat) : UidOp → Nat
  | UidOp.gen => (getUid seed).2
  | UidOp.reset => resetUidSeed

/-- All identifiers produced over a run of operations. -/
def runUids : Nat → List UidOp → List String
  | _, [] => []
  | seed, UidOp.gen :: t => (getUid seed).1 :: runUids (getUid seed).2 t
  | _, UidOp.reset :: t => runUids 0 t

theorem getUid_inj (m n : Nat) (h : (getUid m).1 = (getUid n).1) : m = n := by
  unfold getUid at h
  simp only at h
  have hdata := congrArg String.data h
  simp only [String.data_append] at hdata
  have := List.append_inj_right hdata rfl
  exact natRepr_inj m n (String.ext this)

theorem runUids_resetFree (ops : List UidOp) :
    ∀ n, UidOp.reset ∉ ops →
      runUids n ops =
        (List.range ops.length).map fun k => (getUid (n + k)).1 := by
  induction ops with
  | nil => intro n _; rfl
  | cons o t ih =>
    intro n hno
    cases o with
    | reset => exact absurd (List.mem_cons_self _ _) hno
    | gen =>
      have hnt : UidOp.reset ∉ t := fun hm => hno (List.mem_cons_of_mem _ hm)
      show (getUid n).1 :: runUids (n + 1) t = _
      rw [ih (n + 1) hnt]
      simp only [List.length_cons]
      rw [List.range_succ_eq_map]
      simp only [List.map_cons, Nat.add_zero, List.map_map]
      congr 1
      apply List.map_congr_left
      intro k _
      simp only [Function.comp_apply]
      have he : n + 1 + k = n + (k + 1) := by omega
      rw [he]

/-- C8: identifier generation is strictly monotonic and collision-free
within a run: the counter strictly increases on every generation, two
successive identifiers differ, every reset-free run yields pairwise
distinct identifiers, the counter moves strictly upward under any
operation other than the reset, and only the explicit reset returns it
to its initial value `0`. -/
theorem getUid_monotone_collision_free (n : Nat) (ops : List UidOp)
    (hnr : UidOp.reset ∉ ops) :
    n < (getUid n).2
    ∧ (getUid n).1 ≠ (getUid (getUid n).2).1
    ∧ (runUids n ops).Nodup
    ∧ (∀ o : UidOp, o ≠ UidOp.reset → n < stepUid n o)
    ∧ stepUid n UidOp.reset = 0 := by
  refine ⟨Nat.lt_succ_self n, ?_, ?_, ?_, rfl⟩
  · intro h
    have := getUid_inj n (getUid n).2 h
    simp [getUid] at this
  · rw [runUids_resetFree ops n hnr]
    refine List.Nodup.map ?_ (List.nodup_range _)
    intro a b hab
    have := getUid_inj (n + a) (n + b) hab
    omega
  · intro o ho
    cases o with
    | gen => exact Nat.lt_succ_self n
    | reset => exact absurd rfl ho

/-- C8 witness: three successive generations from seed 0 produce three
distinct identifiers and the seed ends at 3. -/
theorem getUid_monotone_collision_free_witness :
    (runUids 0 [UidOp.gen, UidOp.gen, UidOp.gen]).Nodup
    ∧ 0 < (getUid 0).2 := by
  have h := getUid_monotone_collision_free 0 [UidOp.gen, UidOp.gen, UidOp.gen]
    (by decide)
  exact ⟨h.2.2.1, h.1⟩

theorem adel_absent {β : Type} (l : List (String × β)) (k : String)
    (h : alook l k = none) : adel l k = l := by
  induction l with
  | nil => rfl
  | cons hd t ih =>
    obtain ⟨k0, v0⟩ := hd
    by_cases h0 : k0 = k
    · rw [alook, if_pos h0] at h
      cases h
    · rw [alook, if_neg h0] at h
      rw [adel, if_neg h0, ih h]

theorem ensureHide_modalStates (id : String) (s : ApiState) :
    (ensureHide id s).1.modalStates = s.modalStates := by
  unfold ensureHide
  split <;> rfl

theorem ensureHide_store (id : String) (s : ApiState) :
    (ensureHide id s).1.store = s.store := by
  unfold ensureHide
  split <;> rfl

theorem ensureHide_modalCallbacks (id : String) (s : ApiState) :
    (ensureHide id s).1.modalCallbacks = s.modalCallbacks := by
  unfold ensureHide
  split <;> rfl

theorem ensureHide_closedPromises (id : String) (s : ApiState) :
    (ensureHide id s).1.closedPromises = s.closedPromises := by
  unfold ensureHide
  split <;> rfl

theorem ensureHide_openedCallbacks (id : String) (s : ApiState) :
    (ensureHide id s).1.openedCallbacks = s.openedCallbacks := by
  unfold ensureHide
  split <;> rfl

theorem ensureHide_beforeClosedCallbacks (id : String) (s : ApiState) :
    (ensureHide id s).1.beforeClosedCallbacks = s.beforeClosedCallbacks := by
  unfold ensureHide
  split <;> rfl

theorem ensureHide_mounted (id : String) (s : ApiState) :
    (ensureHide id s).1.mounted = s.mounted := by
  unfold ensureHide
  split <;> rfl

/-- `closeModal` always leaves a close deferred behind and returns it. -/
theorem ensureHide_entry (id : String) (s : ApiState) :
    alook (ensureHide id s).1.hideModalCallbacks id = some (ensureHide id s).2 := by
  unfold ensureHide
  cases hl : alook s.hideModalCallbacks id with
  | some p => exact hl
  | none => exact alook_aset_self _ _ _

/-- `ensureHide` preserves an already-settled or pending cell. -/
theorem ensureHide_hget (id : String) (s : ApiState) (q : Nat)
    (hq : q < s.heap.length) :
    hget (ensureHide id s).1.heap q = hget s.heap q := by
  unfold ensureHide
  cases alook s.hideModalCallbacks id with
  | some p => rfl
  | none => exact hget_append_lt s.heap _ q hq

theorem closeModal_modalStates (id : String) (s : ApiState) :
    (closeModal id s).1.modalStates = aset s.modalStates id LState.closing := by
  unfold closeModal
  rw [ensureHide_modalStates]
  rfl

theorem closeModal_store (id : String) (s : ApiState) :
    (closeModal id s).1.store = reduceVal s.mounted s.store (ModalAction.hide id) := by
  unfold closeModal
  rw [ensureHide_store]
  rfl

theorem closeModal_closedPromises (id : String) (s : ApiState) :
    (closeModal id s).1.closedPromises = s.closedPromises := by
  unfold closeModal
  rw [ensureHide_closedPromises]
  rfl

theorem closeModal_entry (id : String) (s : ApiState) :
    alook (closeModal id s).1.hideModalCallbacks id = some (closeModal id s).2 := by
  unfold closeModal
  exact ensureHide_entry id _

/-- C6 (counterexample to the original claim): closing a nonexistent
identifier is not observationally inert — `closeModal` records lifecycle
state `closing` and creates a close deferred for it. -/
theorem closeModal_nonexistent_mutates :
    alook initState.modalStates "x" = none
    ∧ alook (closeModal "x" initState).1.modalStates "x" = some LState.closing
    ∧ alook (closeModal "x" initState).1.hideModalCallbacks "x" = some 0 := by
  refine ⟨rfl, ?_, ?_⟩
  · decide
  · decide

/-- C6 (amended): lifecycle calls on a nonexistent (or already closed)
identifier never throw; `removeModal` and `setFlags` are complete no-ops,
and `ModalRef.close` on an already-closed identifier changes nothing.
`closeModal`, however, while leaving the reactive store untouched, does
record lifecycle state `closing` and ensures a close deferred exists even
for a nonexistent identifier. -/
theorem lifecycle_noops_nonexistent (s : ApiState) (id : String) (f : Flags)
    (r : Val)
    (h1 : alook s.modalCallbacks id = none)
    (h2 : alook s.hideModalCallbacks id = none)
    (h3 : alook s.openedCallbacks id = none)
    (h4 : alook s.beforeClosedCallbacks id = none)
    (h5 : alook s.modalStates id = none)
    (h6 : alook s.closedPromises id = none)
    (h7 : alook s.store id = none) :
    setFlagsApi id f s = s
    ∧ removeModal id s = s
    ∧ refClose id r (markClosed id s) = markClosed id s
    ∧ (closeModal id s).1.store = s.store
    ∧ alook (closeModal id s).1.modalStates id = some LState.closing
    ∧ alook (closeModal id s).1.hideModalCallbacks id = some (closeModal id s).2 := by
  refine ⟨?_, ?_, ?_, ?_, ?_, closeModal_entry id s⟩
  · show dispatch (ModalAction.setFlags id f) s = s
    unfold dispatch
    have hv : reduceVal s.mounted s.store (ModalAction.setFlags id f) = s.store := by
      simp only [reduceVal, h7]
    rw [hv]
  · cases s with
    | mk heap mc hc oc bc cp ms st mnt =>
      simp only [alook] at h1 h2 h3 h4 h5 h6 h7 ⊢
      simp only [removeModal, cleanupModal, resolveOpened, resolveBefore,
        resolveHide, resolveMain, dispatch, reduceVal, resolveEntry]
      simp [h1, h2, h3, h4, h5, h6, h7, adel_absent]
  · have hc : alook (markClosed id s).modalStates id = some LState.closed :=
      alook_aset_self s.modalStates id LState.closed
    unfold refClose
    rw [if_pos hc]
  · rw [closeModal_store]
    simp only [reduceVal, h7]
  · rw [closeModal_modalStates]
    exact alook_aset_self s.modalStates id LState.closing

/-- C6 witness: the amended behaviour at the empty initial state. -/
theorem lifecycle_noops_nonexistent_witness :
    setFlagsApi "x" {} initState = initState
    ∧ removeModal "x" initState = initState
    ∧ alook (closeModal "x" initState).1.modalStates "x" = some LState.closing := by
  have h := lifecycle_noops_nonexistent initState "x" {} Val.undef
    rfl rfl rfl rfl rfl rfl rfl
  exact ⟨h.1, h.2.1, h.2.2.2.2.1⟩

/-- C5: `removeModal(id)` dispatches `remove` (the store entry is gone),
force-resolves every still-pending deferred of the identifier — main,
close (`hideModalCallbacks`), `beforeClosed` and `opened` — with
`undefined` (it resolves, never rejects), and deletes every ledger entry
of the identifier: callbacks, lifecycle state and stored closed promise. -/
theorem removeModal_settles_everything (s : ApiState) (id : String) :
    alook (removeModal id s).modalCallbacks id = none
    ∧ alook (removeModal id s).hideModalCallbacks id = none
    ∧ alook (removeModal id s).openedCallbacks id = none
    ∧ alook (removeModal id s).beforeClosedCallbacks id = none
    ∧ alook (removeModal id s).modalStates id = none
    ∧ alook (removeModal id s).closedPromises id = none
    ∧ alook (removeModal id s).store id = none
    ∧ (∀ p, alook s.modalCallbacks id = some p →
        hget s.heap p = some PromState.pending →
        hget (removeModal id s).heap p = some (PromState.resolved Val.undef))
    ∧ (∀ p, alook s.hideModalCallbacks id = some p →
        hget s.heap p = some PromState.pending →
        hget (removeModal id s).heap p = some (PromState.resolved Val.undef))
    ∧ (∀ p, alook s.beforeClosedCallbacks id = some p →
        hget s.heap p = some PromState.pending →
        hget (removeModal id s).heap p = some (PromState.resolved Val.undef))
    ∧ (∀ p, alook s.openedCallbacks id = some p →
        hget s.heap p = some PromState.pending →
        hget (removeModal id s).heap p = some (PromState.resolved Val.undef)) := by
  have hheap : (removeModal id s).heap =
      resolveEntry s.openedCallbacks id Val.undef
        (resolveEntry s.beforeClosedCallbacks id Val.undef
          (resolveEntry s.hideModalCallbacks id Val.undef
            (resolveEntry s.modalCallbacks id Val.undef s.heap))) := rfl
  refine ⟨alook_adel_self _ id, alook_adel_self _ id, alook_adel_self _ id,
    alook_adel_self _ id, alook_adel_self _ id, alook_adel_self _ id,
    alook_adel_self _ id, ?_, ?_, ?_, ?_⟩
  · intro p hl hp
    rw [hheap]
    have h1 := resolveEntry_settles s.modalCallbacks id Val.undef s.heap p hl (Or.inl hp)
    exact heapLe_resolveEntry _ _ _ _ p Val.undef
      (heapLe_resolveEntry _ _ _ _ p Val.undef
        (heapLe_resolveEntry _ _ _ _ p Val.undef h1))
  · intro p hl hp
    rw [hheap]
    have h1 : PendOrRes Val.undef (resolveEntry s.modalCallbacks id Val.undef s.heap) p :=
      pendOrRes_resolveEntry _ _ _ _ _ (Or.inl hp)
    have h2 : hget (resolveEntry s.hideModalCallbacks id Val.undef
        (resolveEntry s.modalCallbacks id Val.undef s.heap)) p =
        some (PromState.resolved Val.undef) :=
      resolveEntry_settles _ _ _ _ _ hl h1
    exact heapLe_resolveEntry _ _ _ _ p Val.undef
      (heapLe_resolveEntry _ _ _ _ p Val.undef h2)
  · intro p hl hp
    rw [hheap]
    have h1 : PendOrRes Val.undef (resolveEntry s.hideModalCallbacks id Val.undef
        (resolveEntry s.modalCallbacks id Val.undef s.heap)) p :=
      pendOrRes_resolveEntry _ _ _ _ _
        (pendOrRes_resolveEntry _ _ _ _ _ (Or.inl hp))
    have h2 := resolveEntry_settles s.beforeClosedCallbacks id Val.undef _ p hl h1
    exact heapLe_resolveEntry _ _ _ _ p Val.undef h2
  · intro p hl hp
    rw [hheap]
    have h1 : PendOrRes Val.undef (resolveEntry s.beforeClosedCallbacks id Val.undef
        (resolveEntry s.hideModalCallbacks id Val.undef
          (resolveEntry s.modalCallbacks id Val.undef s.heap))) p :=
      pendOrRes_resolveEntry _ _ _ _ _
        (pendOrRes_resolveEntry _ _ _ _ _
          (pendOrRes_resolveEntry _ _ _ _ _ (Or.inl hp)))
    exact resolveEntry_settles s.openedCallbacks id Val.undef _ p hl h1

/-- C5 witness: on the sample state all four cells end settled at
`undefined` and the ledgers are empty for `"m"`. -/
theorem removeModal_settles_everything_witness :
    hget (removeModal "m" sampleState).heap 0 = some (PromState.resolved Val.undef)
    ∧ hget (removeModal "m" sampleState).heap 1 = some (PromState.resolved Val.undef)
    ∧ hget (removeModal "m" sampleState).heap 2 = some (PromState.resolved Val.undef)
    ∧ hget (removeModal "m" sampleState).heap 3 = some (PromState.resolved Val.undef)
    ∧ alook (removeModal "m" sampleState).modalStates "m" = none := by
  have h := removeModal_settles_everything sampleState "m"
  exact ⟨h.2.2.2.2.2.2.2.1 0 (by decide) (by decide),
    h.2.2.2.2.2.2.2.2.1 1 (by decide) (by decide),
    h.2.2.2.2.2.2.2.2.2.2 2 (by decide) (by decide),
    h.2.2.2.2.2.2.2.2.2.1 3 (by decide) (by decide),
    h.2.2.2.2.1⟩

/-- C1: when `ModalRef.close(result)` runs while the lifecycle state is
not `closed` (in a state whose ledgers hold the identifier's pending
`beforeClosed` cell `q` and main cell `p`, the latter also stored for
`afterClosed()` — exactly what `openModal` sets up, even before the enter
animation has completed), the lifecycle state becomes `closing`, the
`beforeClosed()` and `afterClosed()` promises settle at `result`, and the
`afterClosed()` value stays `result` across every later operation, i.e. it
is resolved with `result` exactly once; and `close` on an identifier whose
lifecycle state is already `closed` changes nothing at all. -/
theorem close_resolves (s : ApiState) (id : String) (r : Val) (p q : Nat)
    (hst : ¬alook s.modalStates id = some LState.closed)
    (hcp : alook s.closedPromises id = some p)
    (hmc : alook s.modalCallbacks id = some p)
    (hp : hget s.heap p = some PromState.pending)
    (hbc : alook s.beforeClosedCallbacks id = some q)
    (hq : hget s.heap q = some PromState.pending) :
    alook (refClose id r s).modalStates id = some LState.closing
    ∧ promValue (refClose id r s) (beforeClosed id s) = some r
    ∧ promValue (refClose id r s) (afterClosed id s) = some r
    ∧ (∀ ops, promValue (applyOps (refClose id r s) ops) (afterClosed id s) =
        some r)
    ∧ refClose id r (markClosed id s) = markClosed id s := by
  have hrc : refClose id r s =
      (closeModal id
        (resolveMain id r (resolveBefore id r (setLife id LState.closing s)))).1 := by
    unfold refClose
    rw [if_neg hst]
  have hheap3 : (resolveMain id r (resolveBefore id r
      (setLife id LState.closing s))).heap =
      resolveEntry s.modalCallbacks id r
        (resolveEntry s.beforeClosedCallbacks id r s.heap) := rfl
  have hqres : hget (resolveMain id r (resolveBefore id r
      (setLife id LState.closing s))).heap q = some (PromState.resolved r) := by
    rw [hheap3]
    exact heapLe_resolveEntry _ _ _ _ q r
      (resolveEntry_settles s.beforeClosedCallbacks id r s.heap q hbc (Or.inl hq))
  have hpres : hget (resolveMain id r (resolveBefore id r
      (setLife id LState.closing s))).heap p = some (PromState.resolved r) := by
    rw [hheap3]
    exact resolveEntry_settles s.modalCallbacks id r _ p hmc
      (pendOrRes_resolveEntry s.beforeClosedCallbacks id r s.heap p (Or.inl hp))
  have hqfin : hget (refClose id r s).heap q = some (PromState.resolved r) := by
    rw [hrc]
    exact closeModal_heapLe id _ q r hqres
  have hpfin : hget (refClose id r s).heap p = some (PromState.resolved r) := by
    rw [hrc]
    exact closeModal_heapLe id _ p r hpres
  have hafter : afterClosed id s = PromRef.cell p := by
    unfold afterClosed
    rw [hcp]
  have hbefore : beforeClosed id s = PromRef.cell q := by
    unfold beforeClosed
    rw [hbc]
  have hvafter : promValue (refClose id r s) (afterClosed id s) = some r := by
    rw [hafter]
    simp only [promValue]
    rw [hpfin]
  refine ⟨?_, ?_, hvafter, ?_, ?_⟩
  · rw [hrc, closeModal_modalStates]
    exact alook_aset_self _ id _
  · rw [hbefore]
    simp only [promValue]
    rw [hqfin]
  · intro ops
    exact promValue_stable (refClose id r s) ops (afterClosed id s) r hvafter
  · have hc : alook (markClosed id s).modalStates id = some LState.closed :=
      alook_aset_self s.modalStates id LState.closed
    unfold refClose
    rw [if_pos hc]

/-- C1 witness: open `"m"` on the initial state, close it with result `5`
before any animation event; the lifecycle is `closing` and `afterClosed()`
still reads `5` after a subsequent animation-end. -/
theorem close_resolves_witness :
    alook (refClose "m" (Val.num 5)
      (openModal "m" none false initState)).modalStates "m" = some LState.closing
    ∧ promValue
        (applyOps (refClose "m" (Val.num 5) (openModal "m" none false initState))
          [Op.animEnd "m"])
        (afterClosed "m" (openModal "m" none false initState)) =
      some (Val.num 5) := by
  have h := close_resolves (openModal "m" none false initState) "m" (Val.num 5)
    0 2 (by decide) (by decide) (by decide) (by decide) (by decide) (by decide)
  exact ⟨h.1, h.2.2.2.1 [Op.animEnd "m"]⟩

/-- C2 (counterexample to the original claim): open `"m"`, close it with
result `1`, let the exit animation finish (`markClosed`) and let the
delayed cleanup fire.  An `afterClosed()` promise obtained before the
purge settles at `1`, but a call made after the purge returns a fresh
promise resolved with `undefined` — not the same eventual value. -/
theorem afterClosed_purge_changes_value :
    promValue
      (purgeClosed "m" (markClosed "m"
        (refClose "m" (Val.num 1) (openModal "m" none false initState))))
      (afterClosed "m"
        (refClose "m" (Val.num 1) (openModal "m" none false initState))) =
      some (Val.num 1)
    ∧ promValue
      (purgeClosed "m" (markClosed "m"
        (refClose "m" (Val.num 1) (openModal "m" none false initState))))
      (afterClosed "m"
        (purgeClosed "m" (markClosed "m"
          (refClose "m" (Val.num 1) (openModal "m" none false initState))))) =
      some Val.undef
    ∧ Val.num 1 ≠ Val.undef := by
  refine ⟨?_, ?_, ?_⟩
  · decide
  · decide
  · decide

/-- C2 (amended): as long as the identifier's stored closed-promise entry
persists, every `afterClosed()` call returns the very same promise, hence
the same eventual value — once settled, later calls see the identical
value.  Once the delayed post-close purge has deleted the entry,
`afterClosed()` instead returns a fresh promise already resolved with
`undefined`. -/
theorem afterClosed_consistent_until_purged (s : ApiState) (id : String)
    (p : Nat) (v : Val) (ops : List Op)
    (hcp : alook s.closedPromises id = some p)
    (hcp2 : alook (applyOps s ops).closedPromises id = some p)
    (hv : promValue s (afterClosed id s) = some v) :
    afterClosed id (applyOps s ops) = afterClosed id s
    ∧ promValue (applyOps s ops) (afterClosed id (applyOps s ops)) = some v
    ∧ afterClosed id (purgeClosed id (markClosed id s)) =
        PromRef.resolvedNow Val.undef := by
  have heq : afterClosed id (applyOps s ops) = afterClosed id s := by
    unfold afterClosed
    rw [hcp, hcp2]
  refine ⟨heq, ?_, ?_⟩
  · rw [heq]
    exact promValue_stable s ops (afterClosed id s) v hv
  · have hc : alook (markClosed id s).modalStates id = some LState.closed :=
      alook_aset_self s.modalStates id LState.closed
    have hpu : (purgeClosed id (markClosed id s)).closedPromises =
        adel (markClosed id s).closedPromises id := by
      unfold purgeClosed
      rw [if_pos hc]
    unfold afterClosed
    rw [hpu]
    rw [show (markClosed id s).closedPromises = s.closedPromises from rfl,
      alook_adel_self]

/-- C2 witness: after `close(1)`, the promise identity and settled value
survive the animation-end bookkeeping (`markClosed`). -/
theorem afterClosed_consistent_until_purged_witness :
    afterClosed "m"
      (applyOps (refClose "m" (Val.num 1) (openModal "m" none false initState))
        [Op.mark "m"]) =
      afterClosed "m" (refClose "m" (Val.num 1) (openModal "m" none false initState))
    ∧ promValue
        (applyOps (refClose "m" (Val.num 1) (openModal "m" none false initState))
          [Op.mark "m"])
        (afterClosed "m"
          (applyOps (refClose "m" (Val.num 1) (openModal "m" none false initState))
            [Op.mark "m"])) = some (Val.num 1) := by
  have h := afterClosed_consistent_until_purged
    (refClose "m" (Val.num 1) (openModal "m" none false initState)) "m" 0
    (Val.num 1) [Op.mark "m"] (by decide) (by decide) (by decide)
  exact ⟨h.1, h.2.1⟩

/-- A successful lookup is a membership. -/
theorem alook_mem {β : Type} (l : List (String × β)) (k : String) (v : β)
    (h : alook l k = some v) : (k, v) ∈ l := by
  induction l with
  | nil => exact absurd h (by simp)
  | cons hd t ih =>
    obtain ⟨k0, v0⟩ := hd
    by_cases h0 : k0 = k
    · subst h0
      rw [alook, if_pos rfl] at h
      injection h with h
      subst h
      exact List.mem_cons_self _ _
    · rw [alook, if_neg h0] at h
      exact List.mem_cons_of_mem _ (ih h)

/-- Positions of the three fresh cells appended by `openModal`. -/
theorem hget_append3 (h : List PromState) (a b c : PromState) :
    hget (h ++ [a] ++ [b] ++ [c]) h.length = some a
    ∧ hget (h ++ [a] ++ [b] ++ [c]) (h.length + 1) = some b
    ∧ hget (h ++ [a] ++ [b] ++ [c]) (h.length + 2) = some c := by
  induction h with
  | nil => exact ⟨rfl, rfl, rfl⟩
  | cons x t ih =>
    exact ⟨ih.1, ih.2.1, ih.2.2⟩

/-- C10: re-opening an identifier replaces its `opened`, `beforeClosed`,
main and stored-closed ledger entries by fresh pending deferreds (cells
allocated beyond the previous heap); any cell `q` that was referenced only
by those per-identifier entries is orphaned by the re-open, and if it was
still pending then no subsequent operation whatsoever ever resolves it —
`notifyOpened`, `close`, `closeAll` and `markClosed` reach only the new
entries. -/
theorem reopen_replaces_ledger (s : ApiState) (id : String) (d : Option Val)
    (km : Bool) (q : Nat)
    (hqlen : q < s.heap.length)
    (hqhideM : ∀ pr ∈ s.hideModalCallbacks, pr.2 ≠ q)
    (hqmainM : ∀ pr ∈ s.modalCallbacks, pr.2 = q → pr.1 = id)
    (hqopenedM : ∀ pr ∈ s.openedCallbacks, pr.2 = q → pr.1 = id)
    (hqbeforeM : ∀ pr ∈ s.beforeClosedCallbacks, pr.2 = q → pr.1 = id)
    (hqclosedM : ∀ pr ∈ s.closedPromises, pr.2 = q → pr.1 = id) :
    alook (openModal id d km s).modalCallbacks id = some s.heap.length
    ∧ alook (openModal id d km s).closedPromises id = some s.heap.length
    ∧ alook (openModal id d km s).openedCallbacks id = some (s.heap.length + 1)
    ∧ alook (openModal id d km s).beforeClosedCallbacks id =
        some (s.heap.length + 2)
    ∧ hget (openModal id d km s).heap s.heap.length = some PromState.pending
    ∧ hget (openModal id d km s).heap (s.heap.length + 1) =
        some PromState.pending
    ∧ hget (openModal id d km s).heap (s.heap.length + 2) =
        some PromState.pending
    ∧ FreeCell (openModal id d km s) q
    ∧ (hget s.heap q = some PromState.pending →
        ∀ ops, hget (applyOps (openModal id d km s) ops).heap q =
          some PromState.pending) := by
  have hqhide : ∀ i, alook s.hideModalCallbacks i ≠ some q :=
    fun i hi => hqhideM (i, q) (alook_mem _ _ _ hi) rfl
  have hqmain : ∀ i, alook s.modalCallbacks i = some q → i = id :=
    fun i hi => hqmainM (i, q) (alook_mem _ _ _ hi) rfl
  have hqopened : ∀ i, alook s.openedCallbacks i = some q → i = id :=
    fun i hi => hqopenedM (i, q) (alook_mem _ _ _ hi) rfl
  have hqbefore : ∀ i, alook s.beforeClosedCallbacks i = some q → i = id :=
    fun i hi => hqbeforeM (i, q) (alook_mem _ _ _ hi) rfl
  have hqclosed : ∀ i, alook s.closedPromises i = some q → i = id :=
    fun i hi => hqclosedM (i, q) (alook_mem _ _ _ hi) rfl
  have hheap : (openModal id d km s).heap =
      s.heap ++ [PromState.pending] ++ [PromState.pending] ++
        [PromState.pending] := by
    cases km <;> rfl
  have hmc : (openModal id d km s).modalCallbacks =
      aset s.modalCallbacks id s.heap.length := by
    cases km <;> rfl
  have hcp : (openModal id d km s).closedPromises =
      aset s.closedPromises id s.heap.length := by
    cases km <;> rfl
  have hoc : (openModal id d km s).openedCallbacks =
      aset s.openedCallbacks id (s.heap ++ [PromState.pending]).length := by
    cases km <;> rfl
  have hbc : (openModal id d km s).beforeClosedCallbacks =
      aset s.beforeClosedCallbacks id
        (s.heap ++ [PromState.pending] ++ [PromState.pending]).length := by
    cases km <;> rfl
  have hhc : (openModal id d km s).hideModalCallbacks =
      s.hideModalCallbacks := by
    cases km <;> rfl
  have hlen1 : (s.heap ++ [PromState.pending]).length = s.heap.length + 1 := by
    simp
  have hlen2 : (s.heap ++ [PromState.pending] ++ [PromState.pending]).length =
      s.heap.length + 2 := by
    simp
  have happ := hget_append3 s.heap PromState.pending PromState.pending
    PromState.pending
  have hfree : FreeCell (openModal id d km s) q := by
    refine ⟨?_, ?_, ?_, ?_, ?_, ?_⟩
    · rw [hheap]
      simp only [List.length_append, List.length_cons, List.length_nil]
      omega
    · intro i hi
      rw [hmc] at hi
      rcases alook_aset_cases _ _ _ _ _ hi with ⟨_, hqv⟩ | hold
      · omega
      · have := hqmain i hold
        subst this
        rw [alook_aset_self] at hi
        have hq2 : s.heap.length = q := by
          injection hi
        omega
    · intro i hi
      rw [hhc] at hi
      exact hqhide i hi
    · intro i hi
      rw [hoc] at hi
      rcases alook_aset_cases _ _ _ _ _ hi with ⟨_, hqv⟩ | hold
      · rw [hlen1] at hqv
        omega
      · have := hqopened i hold
        subst this
        rw [alook_aset_self] at hi
        have hq2 : (s.heap ++ [PromState.pending]).length = q := by
          injection hi
        rw [hlen1] at hq2
        omega
    · intro i hi
      rw [hbc] at hi
      rcases alook_aset_cases _ _ _ _ _ hi with ⟨_, hqv⟩ | hold
      · rw [hlen2] at hqv
        omega
      · have := hqbefore i hold
        subst this
        rw [alook_aset_self] at hi
        have hq2 : (s.heap ++ [PromState.pending] ++ [PromState.pending]).length = q := by
          injection hi
        rw [hlen2] at hq2
        omega
    · intro i hi
      rw [hcp] at hi
      rcases alook_aset_cases _ _ _ _ _ hi with ⟨_, hqv⟩ | hold
      · omega
      · have := hqclosed i hold
        subst this
        rw [alook_aset_self] at hi
        have hq2 : s.heap.length = q := by
          injection hi
        omega
  refine ⟨?_, ?_, ?_, ?_, ?_, ?_, ?_, hfree, ?_⟩
  · rw [hmc]
    exact alook_aset_self _ _ _
  · rw [hcp]
    exact alook_aset_self _ _ _
  · rw [hoc, hlen1]
    exact alook_aset_self _ _ _
  · rw [hbc, hlen2]
    exact alook_aset_self _ _ _
  · rw [hheap]
    exact happ.1
  · rw [hheap]
    exact happ.2.1
  · rw [hheap]
    exact happ.2.2
  · intro hpend ops
    have hkeep : hget (openModal id d km s).heap q = hget s.heap q := by
      rw [hheap]
      rw [hget_append_lt, hget_append_lt, hget_append_lt]
      · exact hqlen
      · simpa using Nat.lt_succ_of_lt hqlen
      · simp only [List.length_append, List.length_cons, List.length_nil]
        omega
    have hfin := freeCell_applyOps ops (openModal id d km s) q hfree
    rw [hfin.2, hkeep, hpend]

/-- C10 witness: after an open–close cycle on `"m"` the cycle's main cell
is 0; re-opening replaces all four entries with cells 4–6 and the orphaned
pending `opened` cell 1 of the first cycle survives a full second cycle
untouched. -/
theorem reopen_replaces_ledger_witness :
    alook (openModal "m" none false
      (refClose "m" Val.undef (openModal "m" none false initState))).modalCallbacks
      "m" = some 4
    ∧ hget (applyOps (openModal "m" none false
        (refClose "m" Val.undef (openModal "m" none false initState)))
        [Op.notify "m", Op.closeRef "m" (Val.num 7), Op.animEnd "m"]).heap 1 =
      some PromState.pending := by
  have h := reopen_replaces_ledger
    (refClose "m" Val.undef (openModal "m" none false initState)) "m" none false
    1 (by decide) (by decide) (by decide) (by decide) (by decide) (by decide)
  exact ⟨h.1, h.2.2.2.2.2.2.2.2 (by decide)
    [Op.notify "m", Op.closeRef "m" (Val.num 7), Op.animEnd "m"]⟩

/-! ### `closeAllModals` loop lemmas (C4) -/

/-- With unique keys, a stored pair is found by lookup. -/
theorem mem_alook {β : Type} (l : List (String × β)) (k : String) (v : β)
    (hnd : (l.map Prod.fst).Nodup) (hm : (k, v) ∈ l) : alook l k = some v := by
  induction l with
  | nil => cases hm
  | cons hd t ih =>
    obtain ⟨k0, v0⟩ := hd
    simp only [List.map_cons, List.nodup_cons] at hnd
    rcases List.mem_cons.mp hm with he | ht
    · injection he with he1 he2
      subst he1
      subst he2
      rw [alook, if_pos rfl]
    · have hk : k0 ≠ k := by
        intro he
        subst he
        exact hnd.1 (List.mem_map.mpr ⟨(k0, v), ht, rfl⟩)
      rw [alook, if_neg hk]
      exact ih hnd.2 ht

/-- The snapshot is exactly the set of open/closing identifiers. -/
theorem getOpenModals_mem (s : ApiState)
    (hnd : (s.modalStates.map Prod.fst).Nodup) (id : String) :
    id ∈ getOpenModals s ↔
      (alook s.modalStates id = some LState.open' ∨
        alook s.modalStates id = some LState.closing) := by
  unfold getOpenModals
  constructor
  · intro hm
    rcases List.mem_map.mp hm with ⟨⟨k, v⟩, hkv, hk⟩
    subst hk
    have hmem := List.mem_of_mem_filter hkv
    have hpred := List.of_mem_filter hkv
    have hal := mem_alook s.modalStates k v hnd hmem
    simp only [decide_eq_true_eq] at hpred
    rcases hpred with h1 | h2
    · exact Or.inl (h1 ▸ hal)
    · exact Or.inr (h2 ▸ hal)
  · intro hal
    rcases hal with h1 | h2
    · exact List.mem_map.mpr ⟨(id, LState.open'),
        List.mem_filter.mpr ⟨alook_mem _ _ _ h1, by simp⟩, rfl⟩
    · exact List.mem_map.mpr ⟨(id, LState.closing),
        List.mem_filter.mpr ⟨alook_mem _ _ _ h2, by simp⟩, rfl⟩

/-- The snapshot has no duplicate identifiers when the lifecycle map's
keys are unique. -/
theorem getOpenModals_nodup (s : ApiState)
    (hnd : (s.modalStates.map Prod.fst).Nodup) : (getOpenModals s).Nodup := by
  unfold getOpenModals
  exact hnd.sublist (List.Sublist.map Prod.fst (List.filter_sublist _))

theorem ensureHide_hide_other (id id' : String) (s : ApiState) (h : id ≠ id') :
    alook (ensureHide id' s).1.hideModalCallbacks id =
      alook s.hideModalCallbacks id := by
  unfold ensureHide
  cases alook s.hideModalCallbacks id' with
  | some p => rfl
  | none => exact alook_aset_ne _ id' id _ fun he => h he.symm

/-- One loop iteration for a different identifier does not disturb `id`'s
ledger entries or lifecycle entry. -/
theorem closeOne_other (s : ApiState) (id id' : String) (h : id ≠ id') :
    alook (closeOne s id').1.modalStates id = alook s.modalStates id
    ∧ alook (closeOne s id').1.beforeClosedCallbacks id =
        alook s.beforeClosedCallbacks id
    ∧ alook (closeOne s id').1.modalCallbacks id = alook s.modalCallbacks id
    ∧ alook (closeOne s id').1.hideModalCallbacks id =
        alook s.hideModalCallbacks id := by
  have hne : id' ≠ id := fun he => h he.symm
  refine ⟨?_, ?_, ?_, ?_⟩
  · rw [show (closeOne s id').1.modalStates =
      aset (aset s.modalStates id' LState.closing) id' LState.closing by
        unfold closeOne
        rw [closeModal_modalStates]
        rfl]
    rw [alook_aset_ne _ _ _ _ hne, alook_aset_ne _ _ _ _ hne]
  · rw [show (closeOne s id').1.beforeClosedCallbacks =
      adel s.beforeClosedCallbacks id' by
        unfold closeOne closeModal
        rw [ensureHide_beforeClosedCallbacks]
        rfl]
    exact alook_adel_ne _ _ _ hne
  · rw [show (closeOne s id').1.modalCallbacks =
      adel (adel s.modalCallbacks id') id' by
        unfold closeOne closeModal
        rw [ensureHide_modalCallbacks]
        rfl]
    rw [alook_adel_ne _ _ _ hne, alook_adel_ne _ _ _ hne]
  · unfold closeOne closeModal
    rw [ensureHide_hide_other id id' _ h]
    rfl

/-- One loop iteration keeps a pending-or-`undefined` cell pending or
`undefined` (all its resolutions carry `undefined`). -/
theorem pendOrRes_closeOne (s : ApiState) (id' : String) (q : Nat)
    (hq : PendOrRes Val.undef s.heap q) :
    PendOrRes Val.undef (closeOne s id').1.heap q := by
  have h1 : PendOrRes Val.undef
      (resolveMain id' Val.undef (resolveBefore id' Val.undef
        (setLife id' LState.closing s))).heap q := by
    exact pendOrRes_resolveEntry _ _ _ _ _ (pendOrRes_resolveEntry _ _ _ _ _ hq)
  have hlen : q < (resolveMain id' Val.undef (resolveBefore id' Val.undef
      (setLife id' LState.closing s))).heap.length := by
    cases h1 with
    | inl hp => exact hget_lt_length _ _ _ hp
    | inr hr => exact hget_lt_length _ _ _ hr
  have h2 : PendOrRes Val.undef
      (resolveMain id' Val.undef (dispatch (ModalAction.hide id')
        (setLife id' LState.closing
          (resolveMain id' Val.undef (resolveBefore id' Val.undef
            (setLife id' LState.closing s)))))).heap q :=
    pendOrRes_resolveEntry _ _ _ _ _ h1
  have hlen2 : q < (resolveMain id' Val.undef (dispatch (ModalAction.hide id')
      (setLife id' LState.closing
        (resolveMain id' Val.undef (resolveBefore id' Val.undef
          (setLife id' LState.closing s)))))).heap.length := by
    cases h2 with
    | inl hp => exact hget_lt_length _ _ _ hp
    | inr hr => exact hget_lt_length _ _ _ hr
  have h3 := ensureHide_hget id'
    (resolveMain id' Val.undef (dispatch (ModalAction.hide id')
      (setLife id' LState.closing
        (resolveMain id' Val.undef (resolveBefore id' Val.undef
          (setLife id' LState.closing s)))))) q hlen2
  unfold closeOne closeModal PendOrRes
  rw [h3]
  exact h2

/-- The collected-promise list only grows along the loop. -/
theorem closeAllAux_ps_mono (ids : List String) (s : ApiState) (ps : List Nat)
    (p : Nat) (hp : p ∈ ps) : p ∈ (closeAllAux ids s ps).2 := by
  induction ids generalizing s ps with
  | nil => exact hp
  | cons id t ih => exact ih _ _ (List.mem_append_left _ hp)

/-- Identifiers not processed by the remaining loop keep their lifecycle
entry and close-deferred entry. -/
theorem closeAllAux_other (ids : List String) (s : ApiState) (ps : List Nat)
    (id : String) (hid : id ∉ ids) :
    alook (closeAllAux ids s ps).1.modalStates id = alook s.modalStates id
    ∧ alook (closeAllAux ids s ps).1.hideModalCallbacks id =
        alook s.hideModalCallbacks id := by
  induction ids generalizing s ps with
  | nil => exact ⟨rfl, rfl⟩
  | cons id0 t ih =>
    have hne : id ≠ id0 := fun he => hid (he ▸ List.mem_cons_self _ _)
    have hnt : id ∉ t := fun hm => hid (List.mem_cons_of_mem _ hm)
    have hco := closeOne_other s id id0 hne
    have hrec := ih (closeOne s id0).1 (ps ++ [(closeOne s id0).2]) hnt
    exact ⟨hrec.1.trans hco.1, hrec.2.trans hco.2.2.2⟩

/-- The settlement condition of the `Promise.all` join. -/
theorem allSettled_iff (h : List PromState) (ps : List Nat) :
    allSettled h ps = true ↔
      ∀ p ∈ ps, ∃ v, hget h p = some (PromState.resolved v) := by
  unfold allSettled
  rw [List.all_eq_true]
  constructor
  · intro ha p hp
    have := ha p hp
    cases hg : hget h p with
    | none => rw [hg] at this; cases this
    | some st =>
      cases st with
      | pending => rw [hg] at this; cases this
      | resolved v => exact ⟨v, rfl⟩
  · intro ha p hp
    rcases ha p hp with ⟨v, hv⟩
    rw [hv]

theorem closeOne_entry (s : ApiState) (id : String) :
    alook (closeOne s id).1.hideModalCallbacks id = some (closeOne s id).2 := by
  unfold closeOne
  exact closeModal_entry id _

theorem closeOne_modalStates (s : ApiState) (id : String) :
    (closeOne s id).1.modalStates =
      aset (aset s.modalStates id LState.closing) id LState.closing := by
  unfold closeOne
  rw [closeModal_modalStates]
  rfl

/-- The invariant carried through the `closeAllModals` loop: every
identifier of the (duplicate-free) snapshot ends in lifecycle `closing`,
has its `beforeClosed` and main cells force-resolved with `undefined`,
and contributes its close deferred to the collected promise list. -/
theorem closeAllAux_spec (ids : List String) (s : ApiState) (ps : List Nat)
    (hnd : ids.Nodup) (id : String) (hmem : id ∈ ids) :
    alook (closeAllAux ids s ps).1.modalStates id = some LState.closing
    ∧ (∀ q, alook s.beforeClosedCallbacks id = some q →
        PendOrRes Val.undef s.heap q →
        hget (closeAllAux ids s ps).1.heap q =
          some (PromState.resolved Val.undef))
    ∧ (∀ q, alook s.modalCallbacks id = some q →
        PendOrRes Val.undef s.heap q →
        hget (closeAllAux ids s ps).1.heap q =
          some (PromState.resolved Val.undef))
    ∧ (∃ p, alook (closeAllAux ids s ps).1.hideModalCallbacks id = some p
        ∧ p ∈ (closeAllAux ids s ps).2) := by
  induction ids generalizing s ps with
  | nil => cases hmem
  | cons id0 t ih =>
    have hnd0 : id0 ∉ t := (List.nodup_cons.mp hnd).1
    have hndt : t.Nodup := (List.nodup_cons.mp hnd).2
    have hstep : closeAllAux (id0 :: t) s ps =
        closeAllAux t (closeOne s id0).1 (ps ++ [(closeOne s id0).2]) := rfl
    rcases List.mem_cons.mp hmem with he | ht
    · subst he
      have hpres := closeAllAux_other t (closeOne s id).1
        (ps ++ [(closeOne s id).2]) id hnd0
      rw [hstep]
      refine ⟨?_, ?_, ?_, ?_⟩
      · rw [hpres.1, closeOne_modalStates]
        exact alook_aset_self _ _ _
      · intro q hq hpq
        have h1 : hget (resolveEntry s.beforeClosedCallbacks id Val.undef
            s.heap) q = some (PromState.resolved Val.undef) :=
          resolveEntry_settles _ _ _ _ _ hq hpq
        have h2 : hget (resolveMain id Val.undef (resolveBefore id Val.undef
            (setLife id LState.closing s))).heap q =
            some (PromState.resolved Val.undef) :=
          heapLe_resolveEntry _ _ _ _ q Val.undef h1
        have h3 : hget (closeOne s id).1.heap q =
            some (PromState.resolved Val.undef) := by
          unfold closeOne
          exact closeModal_heapLe id
            (resolveMain id Val.undef (resolveBefore id Val.undef
              (setLife id LState.closing s))) q Val.undef h2
        exact closeAllAux_heapLe t _ _ q Val.undef h3
      · intro q hq hpq
        have h1 : PendOrRes Val.undef (resolveEntry s.beforeClosedCallbacks
            id Val.undef s.heap) q :=
          pendOrRes_resolveEntry _ _ _ _ _ hpq
        have h2 : hget (resolveMain id Val.undef (resolveBefore id Val.undef
            (setLife id LState.closing s))).heap q =
            some (PromState.resolved Val.undef) :=
          resolveEntry_settles s.modalCallbacks id Val.undef _ q hq h1
        have h3 : hget (closeOne s id).1.heap q =
            some (PromState.resolved Val.undef) := by
          unfold closeOne
          exact closeModal_heapLe id
            (resolveMain id Val.undef (resolveBefore id Val.undef
              (setLife id LState.closing s))) q Val.undef h2
        exact closeAllAux_heapLe t _ _ q Val.undef h3
      · refine ⟨(closeOne s id).2, ?_, ?_⟩
        · rw [hpres.2]
          exact closeOne_entry s id
        · exact closeAllAux_ps_mono t _ _ _
            (List.mem_append_right _ (List.mem_singleton.mpr rfl))
    · have hne : id ≠ id0 := fun he => hnd0 (he ▸ ht)
      have hco := closeOne_other s id id0 hne
      have hrec := ih (closeOne s id0).1 (ps ++ [(closeOne s id0).2]) hndt ht
      rw [hstep]
      refine ⟨hrec.1, ?_, ?_, hrec.2.2.2⟩
      · intro q hq hpq
        exact hrec.2.1 q (by rw [hco.2.1]; exact hq)
          (pendOrRes_closeOne s id0 q hpq)
      · intro q hq hpq
        exact hrec.2.2.1 q (by rw [hco.2.2.1]; exact hq)
          (pendOrRes_closeOne s id0 q hpq)

/-- C4: `closeAllModals()` snapshots exactly the identifiers whose
lifecycle state is `open` or `closing`; every snapshotted identifier ends
in state `closing` with its `beforeClosed` and main promises resolved with
`undefined` and its close deferred collected into the `Promise.all` join;
the join settles in a heap exactly when every collected promise has
settled, so it cannot resolve while any snapshotted identifier's close
promise is still pending. -/
theorem closeAll_joins_every_open (s : ApiState) (id : String)
    (hnd : (s.modalStates.map Prod.fst).Nodup)
    (hop : alook s.modalStates id = some LState.open' ∨
      alook s.modalStates id = some LState.closing) :
    (∀ j, j ∈ getOpenModals s ↔
      (alook s.modalStates j = some LState.open' ∨
        alook s.modalStates j = some LState.closing))
    ∧ alook (closeAllModals s).1.modalStates id = some LState.closing
    ∧ (∀ q, alook s.beforeClosedCallbacks id = some q →
        hget s.heap q = some PromState.pending →
        hget (closeAllModals s).1.heap q = some (PromState.resolved Val.undef))
    ∧ (∀ q, alook s.modalCallbacks id = some q →
        hget s.heap q = some PromState.pending →
        hget (closeAllModals s).1.heap q = some (PromState.resolved Val.undef))
    ∧ (∃ p, alook (closeAllModals s).1.hideModalCallbacks id = some p
        ∧ p ∈ (closeAllModals s).2
        ∧ ∀ h2, hget h2 p = some PromState.pending →
            allSettled h2 (closeAllModals s).2 = false)
    ∧ (∀ h2, allSettled h2 (closeAllModals s).2 = true ↔
        ∀ p ∈ (closeAllModals s).2, ∃ v,
          hget h2 p = some (PromState.resolved v)) := by
  have hmem : id ∈ getOpenModals s := (getOpenModals_mem s hnd id).mpr hop
  have hspec := closeAllAux_spec (getOpenModals s) s []
    (getOpenModals_nodup s hnd) id hmem
  refine ⟨fun j => getOpenModals_mem s hnd j, hspec.1, ?_, ?_, ?_,
    fun h2 => allSettled_iff h2 _⟩
  · intro q hq hpend
    exact hspec.2.1 q hq (Or.inl hpend)
  · intro q hq hpend
    exact hspec.2.2.1 q hq (Or.inl hpend)
  · obtain ⟨p, hp1, hp2⟩ := hspec.2.2.2
    refine ⟨p, hp1, hp2, ?_⟩
    intro h2 hpend
    cases hall : allSettled h2 (closeAllModals s).2 with
    | false => rfl
    | true =>
      exfalso
      obtain ⟨v, hv⟩ := (allSettled_iff h2 _).mp hall p hp2
      rw [hpend] at hv
      cases hv

/-- C4 witness: with `"a"` and `"b"` open, `closeAllModals` puts `"a"` in
`closing` and, at the instant the loop finishes, both collected close
promises are still pending, so the join is not yet settled. -/
theorem closeAll_joins_every_open_witness :
    alook (closeAllModals (openModal "b" none false
      (openModal "a" none false initState))).1.modalStates "a" =
      some LState.closing
    ∧ allSettled
        (closeAllModals (openModal "b" none false
          (openModal "a" none false initState))).1.heap
        (closeAllModals (openModal "b" none false
          (openModal "a" none false initState))).2 = false := by
  have h := closeAll_joins_every_open
    (openModal "b" none false (openModal "a" none false initState)) "a"
    (by decide) (Or.inl (by decide))
  obtain ⟨p, hp1, hp2, hp3⟩ := h.2.2.2.2.1
  have hp6 : p = 6 := by
    have hd : alook (closeAllModals (openModal "b" none false
        (openModal "a" none false initState))).1.hideModalCallbacks "a" =
        some 6 := by decide
    rw [hp1] at hd
    exact Option.some_inj.mp hd
  refine ⟨h.2.1, hp3 _ ?_⟩
  rw [hp6]
  decide

end ModalMgr
